import Mathlib

set_option autoImplicit false

set_option maxRecDepth 4000

/-!
Verification of the water-level gap-filling pipeline.

The repository holds two near-duplicate Streamlit applications:
streamlit_app.py (the basic variant, embedded below in namespace App)
and test.py (the extended variant, embedded in namespace Test).
Code shared verbatim by the two files is embedded once at top level.

Modelling conventions (shallow embedding):
- a pandas DataFrame is a List Row; column values that can be NaN/NaT
  are Option-typed (none is the missing marker);
- timestamps are natural numbers counting minutes, so the 15-minute grid
  frequency of the source (freq 15T) is the literal 15;
- pandas comparison semantics on possibly-NaN columns are made explicit:
  every ordering or equality comparison involving NaN is false, and a
  NaN-vs-number disequality is true;
- the sklearn RandomForest / RandomizedSearchCV training call is an
  external library whose fitted model we cannot embed; it is abstracted
  as a parameter train : List Row → Row → ℚ mapping a training frame
  and a feature row to a predicted value.  All orchestrator theorems are
  universally quantified over train;
- pd.Timestamp.now() is abstracted as a parameter now : ℕ.
-/

/-- Row of the working DataFrame.  dt is the datetime column in minutes;
week and month are the calendar features produced upstream by
create_time_features (NaN for rows manufactured by the grid merge, hence
Option); wl_up is the water-level value column; wl_up_prev, wl_forecast,
tstamp and wl_up2 are the auxiliary columns of the extended variant. -/
structure Row where
  dt : ℕ
  week : Option ℕ
  month : Option ℕ
  wl_up : Option ℚ
  wl_up_prev : Option ℚ
  wl_forecast : Option ℚ
  tstamp : Option ℕ
  wl_up2 : Option ℚ
deriving DecidableEq, Repr

/-- Row of the raw uploaded CSV as seen by clean_data: the datetime column
after pd.to_datetime with errors coerce (none models NaT, a parse failure)
and the raw value column (none models NaN). -/
structure RawRow where
  dtParsed : Option ℕ
  wl_up : Option ℚ
deriving DecidableEq, Repr

/-- Pandas semantics of a greater-or-equal comparison against a constant on
a possibly-NaN value: NaN compares false. -/
def pandasGe (v : Option ℚ) (c : ℚ) : Bool :=
  match v with
  | some x => decide (c ≤ x)
  | none => false

/-- Pandas semantics of a less-or-equal comparison against a constant on a
possibly-NaN value: NaN compares false. -/
def pandasLe (v : Option ℚ) (c : ℚ) : Bool :=
  match v with
  | some x => decide (x ≤ c)
  | none => false

/-- Pandas semantics of a disequality comparison against a constant on a
possibly-NaN value: NaN counts as different from every number. -/
def pandasNe (v : Option ℚ) (c : ℚ) : Bool :=
  match v with
  | some x => decide (x ≠ c)
  | none => true

/-- Embedding of clean_data (lines 12-18 of streamlit_app.py, identical at
lines 34-40 of test.py): parse the datetime column (already reflected in
dtParsed), drop NaT rows, keep rows with wl_up between 100 and 450, then
keep rows with wl_up nonzero and not NaN. -/
def clean_data (df : List RawRow) : List RawRow :=
  ((df.filter (fun r => r.dtParsed.isSome)).filter
      (fun r => pandasGe r.wl_up 100 && pandasLe r.wl_up 450)).filter
    (fun r => pandasNe r.wl_up 0 && r.wl_up.isSome)

/-- Predicate spelling out the claim: a row is kept exactly when its
timestamp parses and its value is present, nonzero, and inside 100..450. -/
def keepsRow (r : RawRow) : Bool :=
  r.dtParsed.isSome &&
    match r.wl_up with
    | some v => decide (100 ≤ v) && decide (v ≤ 450) && decide (v ≠ 0)
    | none => false

/-- Minimum of a list of naturals, mirroring the pandas min of a column
(the empty case never occurs in the claims and defaults to 0). -/
def natMinL : List ℕ → ℕ
  | [] => 0
  | x :: xs => xs.foldl Nat.min x

/-- Maximum of a list of naturals, mirroring the pandas max of a column. -/
def natMaxL : List ℕ → ℕ
  | [] => 0
  | x :: xs => xs.foldl Nat.max x

/-- Row manufactured by the left merge of generate_missing_dates for a grid
timestamp that has no match in the input: every non-key column is NaN. -/
def blankRow (t : ℕ) : Row :=
  { dt := t, week := none, month := none, wl_up := none, wl_up_prev := none,
    wl_forecast := none, tstamp := none, wl_up2 := none }

/-- Embedding of pd.date_range(start, end, freq 15T): the timestamps
lo, lo+15, lo+30, ... not exceeding hi. -/
def gridRange (lo hi : ℕ) : List ℕ :=
  (List.range ((hi - lo) / 15 + 1)).map (fun k => lo + 15 * k)

/-- One left-merge group of generate_missing_dates: for grid timestamp t,
all input rows carrying exactly t (in input order), or a single all-NaN row
when none matches.  This is the semantics of a pandas left merge on the
datetime key. -/
def mergeAt (data : List Row) (t : ℕ) : List Row :=
  match data.filter (fun r => r.dt = t) with
  | [] => [blankRow t]
  | ms => ms

/-- Embedding of generate_missing_dates (lines 72-76 of streamlit_app.py,
identical at lines 122-126 of test.py): build the full 15-minute date range
between the minimum and maximum input timestamp, then left-merge the input
onto it.  On an empty input pd.date_range receives NaN bounds and yields no
rows. -/
def generate_missing_dates (data : List Row) : List Row :=
  match data with
  | [] => []
  | _ :: _ =>
    (gridRange (natMinL (data.map (fun r => r.dt)))
        (natMaxL (data.map (fun r => r.dt)))).flatMap (mergeAt data)

/-- Witness data for the duplicate-timestamp counterexample: two valid
readings share timestamp 0. -/
def dupData : List Row :=
  [{ blankRow 0 with wl_up := some 100 }, { blankRow 0 with wl_up := some 101 }]

/-- Witness data for C2: three distinct-timestamp readings, one off-grid. -/
def c2Data : List Row :=
  [{ blankRow 0 with wl_up := some 100 }, { blankRow 20 with wl_up := some 110 },
   { blankRow 30 with wl_up := some 120 }]

/-- Message reported through the Streamlit warning side channel by the
deletion routine. -/
inductive DeleteMsg where
  | noDataFound
  | excessiveDeletion
deriving DecidableEq, Repr

/-- Rows of the frame falling inside the requested deletion window
(datetime between the two bounds, inclusive). -/
def inRangeRow (s e : ℕ) (r : Row) : Bool :=
  decide (s ≤ r.dt) && decide (r.dt ≤ e)

/-- Embedding of the data_to_delete selection shared by both variants of
delete_data_by_date_range. -/
def dataToDelete (data : List Row) (s e : ℕ) : List Row :=
  data.filter (inRangeRow s e)

namespace Test

/-- Embedding of delete_data_by_date_range from test.py (lines 250-267):
report when no row matches; reject (leaving the data untouched) when the
matched rows exceed 30 percent of the frame; otherwise blank the value
column of exactly the matched rows.  The literal 0.3 of the source is the
rational 3/10 here; for row counts in question the float product of the
source rounds to the same comparisons. -/
def delete_data_by_date_range (data : List Row) (s e : ℕ) :
    List Row × Option DeleteMsg :=
  let toDel := dataToDelete data s e
  if toDel.length = 0 then (data, some DeleteMsg.noDataFound)
  else if (3 : ℚ) / 10 * (data.length : ℚ) < (toDel.length : ℚ) then
    (data, some DeleteMsg.excessiveDeletion)
  else (data.map (fun r => if inRangeRow s e r then { r with wl_up := none } else r),
        none)

end Test

namespace App

/-- Embedding of delete_data_by_date_range from streamlit_app.py (lines
173-187): blank the value column of the matched rows whenever any row
matches, with no size guard; report only when no row matches. -/
def delete_data_by_date_range (data : List Row) (s e : ℕ) :
    List Row × Option DeleteMsg :=
  let toDel := dataToDelete data s e
  if toDel.isEmpty then (data, some DeleteMsg.noDataFound)
  else (data.map (fun r => if inRangeRow s e r then { r with wl_up := none } else r),
        none)

end App

/-- Witness data for C6: four rows, a deletion window covering one of them
(25 percent, under the guard). -/
def delData : List Row :=
  [{ blankRow 0 with wl_up := some 100 }, { blankRow 15 with wl_up := some 110 },
   { blankRow 30 with wl_up := some 120 }, { blankRow 45 with wl_up := some 130 }]

/-- Regression metrics returned by the accuracy reporter. -/
structure Metrics where
  mse : ℚ
  mae : ℚ
  r2 : ℚ
deriving DecidableEq, Repr

/-- Abstract error of the accuracy reporter.  In the source, sklearn raises
on an empty input; the spec names this condition InsufficientDataError. -/
inductive MetricsError where
  | insufficientData
deriving DecidableEq, Repr

/-- Embedding of the pandas inner merge on the datetime key used by
calculate_accuracy_metrics (test.py line 270): for each row of the original
frame, in order, pair its value with the value of every filled-frame row
carrying the same timestamp. -/
def mergeInner (original filled : List (ℕ × ℚ)) : List (ℕ × ℚ × ℚ) :=
  original.flatMap (fun p =>
    (filled.filter (fun q => q.1 = p.1)).map (fun q => (p.1, p.2, q.2)))

/-- Arithmetic mean of a list of rationals. -/
def meanQ (l : List ℚ) : ℚ := l.sum / (l.length : ℚ)

/-- Embedding of sklearn mean_squared_error on paired values. -/
def mean_squared_error (pairs : List (ℚ × ℚ)) : ℚ :=
  ((pairs.map (fun p => (p.1 - p.2) ^ 2)).sum) / (pairs.length : ℚ)

/-- Embedding of sklearn mean_absolute_error on paired values. -/
def mean_absolute_error (pairs : List (ℚ × ℚ)) : ℚ :=
  ((pairs.map (fun p => |p.1 - p.2|)).sum) / (pairs.length : ℚ)

/-- Embedding of sklearn r2_score on paired values: 1 - SSres/SStot, with
the sklearn conventions for a constant reference series (score 1 when the
residuals also vanish, 0 otherwise). -/
def totalSumSquares (pairs : List (ℚ × ℚ)) (ybar : ℚ) : ℚ :=
  (pairs.map (fun p => (p.1 - ybar) ^ 2)).sum

def r2_score (pairs : List (ℚ × ℚ)) : ℚ :=
  let num := (pairs.map (fun p => (p.1 - p.2) ^ 2)).sum
  let den := totalSumSquares pairs (meanQ (pairs.map (fun p => p.1)))
  if den = 0 then (if num = 0 then 1 else 0) else 1 - num / den

/-- Embedding of calculate_accuracy_metrics (test.py lines 269-284): inner
join of the reference values with the reconstructed values on the datetime
key, then the three sklearn metrics over the joined pairs.  The sklearn
calls raise on an empty join; that failure is the insufficientData error. -/
def calculate_accuracy_metrics (original filled : List (ℕ × ℚ)) :
    Except MetricsError Metrics :=
  let merged := (mergeInner original filled).map (fun x => (x.2.1, x.2.2))
  if merged = [] then Except.error MetricsError.insufficientData
  else Except.ok
    { mse := mean_squared_error merged
      mae := mean_absolute_error merged
      r2 := r2_score merged }

/-- Witness series for C7: a two-point series (identical-series case) and a
pair of series with disjoint timestamps (no-overlap case). -/
def c7s : List (ℕ × ℚ) := [(0, 100), (15, 110)]

def c7a : List (ℕ × ℚ) := [(0, 100)]

def c7b : List (ℕ × ℚ) := [(15, 200)]

namespace App

/-- Embedding of the fold-count computation of train_model in
streamlit_app.py (line 56): n_splits is the minimum of 3 and half the
training-scope size. -/
def n_splits (x_train_len : ℕ) : ℕ := Nat.min 3 (x_train_len / 2)

end App

namespace Test

/-- Embedding of the fold-count configuration of train_model in test.py
(line 107): a fixed forward-chaining split count of 5, independent of the
scope size. -/
def n_splits : ℕ := 5

end Test

/-- Modelled from the spec: sklearn cross-validation refuses to run with
fewer than 2 folds or with more folds than samples; within those bounds the
randomized search completes.  The sklearn library is outside the
repository, so only this precondition is modelled. -/
def cvRuns (folds samples : ℕ) : Bool :=
  decide (2 ≤ folds) && decide (folds ≤ samples)

/-- Pandas equality mask between a possibly-NaN column value and a
possibly-NaN scalar: any comparison involving NaN is false. -/
def pandasEqN (a b : Option ℕ) : Bool :=
  match a, b with
  | some x, some y => decide (x = y)
  | _, _ => false

/-- Python ordering on possibly-NaN numbers: comparisons involving NaN are
false. -/
def pyLt (a b : Option ℕ) : Bool :=
  match a, b with
  | some x, some y => decide (x < y)
  | _, _ => false

/-- Python builtin min over the array of weeks carrying missing rows: keep
the current candidate unless the next element compares strictly below it. -/
def pyMinList : List (Option ℕ) → Option ℕ
  | [] => none
  | x :: xs => xs.foldl (fun acc y => if pyLt y acc then y else acc) x

/-- Python builtin max over the array of weeks carrying missing rows. -/
def pyMaxList : List (Option ℕ) → Option ℕ
  | [] => none
  | x :: xs => xs.foldl (fun acc y => if pyLt acc y then y else acc) x

/-- Decrement of a possibly-NaN number (NaN propagates).  Week and month
values produced by the calendar features are at least 1, so the truncated
natural subtraction agrees with the source arithmetic. -/
def osub1 : Option ℕ → Option ℕ
  | some x => some (x - 1)
  | none => none

/-- Increment of a possibly-NaN number (NaN propagates). -/
def oadd1 : Option ℕ → Option ℕ
  | some x => some (x + 1)
  | none => none

/-- Worker of the unique computation: emit each element on its first
occurrence, carrying the set of values already seen. -/
def pdUniqueGo (seen : List (Option ℕ)) : List (Option ℕ) → List (Option ℕ)
  | [] => []
  | x :: xs =>
    if x ∈ seen then pdUniqueGo seen xs
    else x :: pdUniqueGo (x :: seen) xs

/-- Embedding of pandas Series.unique: the values in order of first
occurrence, NaN kept (once). -/
def pdUnique (l : List (Option ℕ)) : List (Option ℕ) :=
  pdUniqueGo [] l

/-- Rows of the cleaned frame inside the requested processing window
(handle_missing_values_by_week, line 93 of streamlit_app.py and line 150 of
test.py). -/
def windowData (dc : List Row) (s e : ℕ) : List Row :=
  dc.filter (fun r => decide (s ≤ r.dt) && decide (r.dt ≤ e))

/-- data_with_all_dates: the windowed frame regridded onto the full
15-minute axis (line 96 / line 153). -/
def data_with_all_dates (dc : List Row) (s e : ℕ) : List Row :=
  generate_missing_dates (windowData dc s e)

/-- data_missing: grid rows whose value is absent (line 98 / line 155). -/
def data_missing (dc : List Row) (s e : ℕ) : List Row :=
  (data_with_all_dates dc s e).filter (fun r => r.wl_up.isNone)

/-- data_not_missing: grid rows whose value is present (line 99 /
line 156). -/
def data_not_missing (dc : List Row) (s e : ℕ) : List Row :=
  (data_with_all_dates dc s e).filter (fun r => r.wl_up.isSome)

/-- weeks_with_missing: unique week numbers over the missing rows
(line 113 / line 176). -/
def weeks_with_missing (dm : List Row) : List (Option ℕ) :=
  pdUnique (dm.map (fun r => r.week))

/-- Missing rows of the frame dm belonging to week w: the group selected by
the boolean mask comparing the week column against w. -/
def groupOf (dm : List Row) (w : Option ℕ) : List Row :=
  dm.filter (fun r => pandasEqN r.week w)

/-- Null count of the week-w slice of the missing frame: the severity
measure of the partition loop (line 117 / line 180) and of the escalation
test of the high-severity pass (line 150 / line 218). -/
def nullCountWeek (dm : List Row) (w : Option ℕ) : ℕ :=
  ((groupOf dm w).filter (fun r => r.wl_up.isNone)).length

/-- Embedding of the partition loop (lines 115-121 / lines 178-184):
iterate the unique weeks in order, appending each to the low-severity list
when its missing count is at most 288 and to the high-severity list
otherwise. -/
def classifyWeeks (dm : List Row) : List (Option ℕ) × List (Option ℕ) :=
  (weeks_with_missing dm).foldl
    (fun acc w =>
      if nullCountWeek dm w ≤ 288 then (acc.1 ++ [w], acc.2)
      else (acc.1, acc.2 ++ [w]))
    ([], [])

/-- prev_week of the high-severity loop (line 143 / line 209): one week
back, clamped at the minimum week carrying missing rows. -/
def prevWeekOf (dm : List Row) (w : Option ℕ) : Option ℕ :=
  if pyLt (pyMinList (weeks_with_missing dm)) w then osub1 w else w

/-- next_week of the high-severity loop (line 144 / line 210): one week
forward, clamped at the maximum week carrying missing rows. -/
def nextWeekOf (dm : List Row) (w : Option ℕ) : Option ℕ :=
  if pyLt w (pyMaxList (weeks_with_missing dm)) then oadd1 w else w

/-- First value of the month column of a group (iloc[0]); the groups the
source applies it to are nonempty, so the empty default is never reached
there. -/
def headMonth : List Row → Option ℕ
  | [] => none
  | r :: _ => r.month

/-- Semantics of a .loc assignment on the datetime-indexed grid: apply the
column update upd to every row labelled t. -/
def updAt (g : List Row) (t : ℕ) (upd : Row → Row) : List Row :=
  g.map (fun r => if r.dt = t then upd r else r)

/-- The loc assignment of the basic variant: write a predicted value into
the wl_up column (streamlit_app.py lines 135, 160, 168). -/
def setWl (g : List Row) (t : ℕ) (v : ℚ) : List Row :=
  updAt g t (fun r => { r with wl_up := some v })

/-- The loc assignment of the extended variant: write a predicted value
into the wl_forecast column and the synthesis time into the timestamp
column (test.py lines 200-201, 230-231, 241-242). -/
def setForecast (g : List Row) (t : ℕ) (v : ℚ) (now : ℕ) : List Row :=
  updAt g t (fun r => { r with wl_forecast := some v, tstamp := some now })

/-- Grid row carrying a given datetime label (the first, which is the only
one on a duplicate-free grid). -/
def rowAt (g : List Row) (t : ℕ) : Option Row :=
  g.find? (fun r => r.dt = t)

namespace App

/-- Low-severity step of the basic variant (streamlit_app.py lines
124-135): when the week has at least one present row, train on exactly the
present rows of that week (the pool snapshot taken before any fill) and
write a prediction into the value slot of every missing row of the week.
The source binds the week pool and the fitted model once before its row
loop; both are pure, so inlining them leaves the computed grid unchanged. -/
def lowStep (train : List Row → Row → ℚ) (dm dnm : List Row)
    (g : List Row) (w : Option ℕ) : List Row :=
  if 0 < (dnm.filter (fun r => pandasEqN r.week w)).length then
    (groupOf dm w).foldl
      (fun g2 r =>
        setWl g2 r.dt (train (dnm.filter (fun r2 => pandasEqN r2.week w)) r)) g
  else g

/-- Grid state after the whole low-severity pass of the basic variant. -/
def lowGrid (train : List Row → Row → ℚ) (dc : List Row) (s e : ℕ) :
    List Row :=
  (classifyWeeks (data_missing dc s e)).1.foldl
    (lowStep train (data_missing dc s e) (data_not_missing dc s e))
    (data_with_all_dates dc s e)

/-- data_not_missing recomputed after the low-severity fills
(streamlit_app.py line 138): the present pool the high-severity pass trains
from. -/
def pool1 (train : List Row → Row → ℚ) (dc : List Row) (s e : ℕ) :
    List Row :=
  (lowGrid train dc s e).filter (fun r => r.wl_up.isSome)

/-- Training scope selected for a high-severity week (streamlit_app.py
lines 143-155 and 161-162): all present rows of the whole cleaned frame
sharing the calendar month of the week when the adjacent next week also has
more than 288 missing rows, else the concatenation of the present rows of
the clamped adjacent weeks taken from the recomputed pool. -/
def highScope (dc dm pool : List Row) (w : Option ℕ) : List Row :=
  if 288 < nullCountWeek dm (nextWeekOf dm w) then
    dc.filter (fun r =>
      pandasEqN r.month (headMonth (groupOf dm w)) && r.wl_up.isSome)
  else
    pool.filter (fun r => pandasEqN r.week (prevWeekOf dm w))
      ++ pool.filter (fun r => pandasEqN r.week (nextWeekOf dm w))

/-- High-severity step of the basic variant (streamlit_app.py lines
141-168): train on the selected scope and write a prediction into the value
slot of every missing row of the week.  The two branch loops of the source
are identical except for the training scope, which highScope carries. -/
def highStep (train : List Row → Row → ℚ) (dc dm pool : List Row)
    (g : List Row) (w : Option ℕ) : List Row :=
  (groupOf dm w).foldl
    (fun g2 r => setWl g2 r.dt (train (highScope dc dm pool w) r)) g

/-- Embedding of handle_missing_values_by_week from streamlit_app.py
(lines 82-171): window the frame, regrid, split missing from present,
return the grid untouched when nothing is missing, otherwise resolve every
low-severity week (writing into the value column), recompute the present
pool, then resolve every high-severity week from that pool.  The
whole-pool model of line 107 is trained but never consulted afterwards;
that pure dead computation is not represented. -/
def handle_missing_values_by_week (train : List Row → Row → ℚ)
    (data_clean : List Row) (s e : ℕ) : List Row :=
  if (data_missing data_clean s e).length = 0 then
    data_with_all_dates data_clean s e
  else
    (classifyWeeks (data_missing data_clean s e)).2.foldl
      (highStep train data_clean (data_missing data_clean s e)
        (pool1 train data_clean s e))
      (lowGrid train data_clean s e)

end App

/-- Witness data for C3: a three-row grid with one missing value in week
one. -/
def c3Data : List Row :=
  [{ blankRow 0 with week := some 1, month := some 1, wl_up := some 200 },
   { blankRow 15 with week := some 1, month := some 1 },
   { blankRow 30 with week := some 1, month := some 1, wl_up := some 210 }]

namespace Test

/-- Index and value of the first present element of a column suffix, used
by the linear interpolation. -/
def findNextSome : List (Option ℚ) → Option (ℕ × ℚ)
  | [] => none
  | some v :: _ => some (0, v)
  | none :: xs => (findNextSome xs).map (fun p => (p.1 + 1, p.2))

/-- Pandas linear interpolation over positions (method linear ignores the
index): a gap between two present values is filled on the straight line
through them; values after the last present one repeat it; values before
the first present one stay absent. -/
def interpFrom (prev : Option (ℕ × ℚ)) (i : ℕ) :
    List (Option ℚ) → List (Option ℚ)
  | [] => []
  | some v :: xs => some v :: interpFrom (some (i, v)) (i + 1) xs
  | none :: xs =>
    (match prev with
     | none => none
     | some pj =>
       match findNextSome xs with
       | none => some pj.2
       | some db =>
         some (pj.2 + (db.2 - pj.2)
           * (((i : ℚ) - (pj.1 : ℚ)) / (((i + 1 + db.1 : ℕ) : ℚ) - (pj.1 : ℚ)))))
      :: interpFrom prev (i + 1) xs

/-- Interpolation of a full column from the start. -/
def interpolate_linear (l : List (Option ℚ)) : List (Option ℚ) :=
  interpFrom none 0 l

/-- Positional assignment of a column of values into the wl_up_prev field. -/
def setPrevCol : List Row → List (Option ℚ) → List Row
  | r :: rs, v :: vs => { r with wl_up_prev := v } :: setPrevCol rs vs
  | rs, [] => rs
  | [], _ => []

/-- The wl_up_prev interpolation of test.py (lines 159-162, the branch
where the column already exists, which is the branch the application flow
exercises): replace the wl_up_prev column by its linear interpolation. -/
def interpPrevCol (g : List Row) : List Row :=
  setPrevCol g (interpolate_linear (g.map (fun r => r.wl_up_prev)))

/-- Low-severity step of the extended variant (test.py lines 187-201):
like the basic variant, but the prediction goes to the wl_forecast column
together with the synthesis time in the timestamp column; the wl_up column
is not written. -/
def lowStep (train : List Row → Row → ℚ) (now : ℕ) (dm dnm : List Row)
    (g : List Row) (w : Option ℕ) : List Row :=
  if 0 < (dnm.filter (fun r => pandasEqN r.week w)).length then
    (groupOf dm w).foldl
      (fun g2 r =>
        setForecast g2 r.dt
          (train (dnm.filter (fun r2 => pandasEqN r2.week w)) r) now) g
  else g

/-- Grid state after the whole low-severity pass of the extended variant
(which starts from the wl_up_prev-interpolated grid). -/
def lowGrid (train : List Row → Row → ℚ) (now : ℕ) (dc : List Row)
    (s e : ℕ) : List Row :=
  (classifyWeeks (data_missing dc s e)).1.foldl
    (lowStep train now (data_missing dc s e) (data_not_missing dc s e))
    (interpPrevCol (data_with_all_dates dc s e))

/-- data_not_missing recomputed after the low-severity pass (test.py line
204): the present pool the high-severity pass trains from. -/
def pool1 (train : List Row → Row → ℚ) (now : ℕ) (dc : List Row)
    (s e : ℕ) : List Row :=
  (lowGrid train now dc s e).filter (fun r => r.wl_up.isSome)

/-- Training scope selected for a high-severity week in the extended
variant (test.py lines 208-223, 232-234): the month scope over all present
rows of the cleaned frame under escalation, else the concatenation of the
present rows of the clamped adjacent weeks and of the prior calendar month,
all taken from the recomputed pool. -/
def highScope (dc dm pool : List Row) (w : Option ℕ) : List Row :=
  if 288 < nullCountWeek dm (nextWeekOf dm w) then
    dc.filter (fun r =>
      pandasEqN r.month (headMonth (groupOf dm w)) && r.wl_up.isSome)
  else
    pool.filter (fun r => pandasEqN r.week (prevWeekOf dm w))
      ++ pool.filter (fun r => pandasEqN r.week (nextWeekOf dm w))
      ++ pool.filter (fun r =>
          pandasEqN r.month (osub1 (headMonth (groupOf dm w))))

/-- High-severity step of the extended variant (test.py lines 207-242):
train on the selected scope and write the prediction and synthesis time
into the provenance columns of every missing row of the week. -/
def highStep (train : List Row → Row → ℚ) (now : ℕ) (dc dm pool : List Row)
    (g : List Row) (w : Option ℕ) : List Row :=
  (groupOf dm w).foldl
    (fun g2 r => setForecast g2 r.dt (train (highScope dc dm pool w) r) now) g

/-- The wl_up2 display column of test.py line 245: the original value where
present, the forecast where absent (combine_first semantics). -/
def mergeDisplay (r : Row) : Row :=
  { r with wl_up2 := match r.wl_up with
                     | some v => some v
                     | none => r.wl_forecast }

/-- Embedding of handle_missing_values_by_week from test.py (lines
139-248): window the frame, regrid, split missing from present, interpolate
the wl_up_prev column, return that grid when nothing is missing, otherwise
run the low-severity pass (provenance columns only), recompute the present
pool, run the high-severity pass, and finally populate the wl_up2 display
column.  The whole-pool model of line 170 is trained but never consulted
afterwards; that pure dead computation is not represented. -/
def handle_missing_values_by_week (train : List Row → Row → ℚ) (now : ℕ)
    (data_clean : List Row) (s e : ℕ) : List Row :=
  if (data_missing data_clean s e).length = 0 then
    interpPrevCol (data_with_all_dates data_clean s e)
  else
    ((classifyWeeks (data_missing data_clean s e)).2.foldl
        (highStep train now data_clean (data_missing data_clean s e)
          (pool1 train now data_clean s e))
        (lowGrid train now data_clean s e)).map mergeDisplay

end Test

/-- Constant trainer used to instantiate the abstract training parameter
in concrete witnesses: it ignores its inputs and predicts 200. -/
def ctrain0 : List Row → Row → ℚ := fun _ _ => 200

/-- Projection of a row onto its datetime and value columns, the columns
the value-preservation claims speak about. -/
def projDV (r : Row) : ℕ × Option ℚ := (r.dt, r.wl_up)

/-- Projection of a row onto every column except wl_up_prev and wl_up2. -/
def projCore (r : Row) : ℕ × Option ℚ × Option ℚ × Option ℕ :=
  (r.dt, r.wl_up, r.wl_forecast, r.tstamp)

/-- Projection of a row onto its datetime and the provenance and display
columns (wl_forecast, timestamp, wl_up2): the columns the basic variant
never writes. -/
def projProv (r : Row) : ℕ × Option ℚ × Option ℕ × Option ℚ :=
  (r.dt, r.wl_forecast, r.tstamp, r.wl_up2)

/-- Provenance invariant of the extended variant: any row carrying a
forecast still has its value slot absent and carries the synthesis time. -/
def Know (now : ℕ) (g : List Row) : Prop :=
  ∀ q ∈ g, q.wl_forecast.isSome → (q.wl_up = none ∧ q.tstamp = some now)

/-- Row constructor of the concrete orchestrator scenario: slot i of the
15-minute grid, a given week, month 1, and an optional value. -/
def exRow (i : ℕ) (w : ℕ) (v : Option ℚ) : Row :=
  { blankRow (15 * i) with week := some w, month := some 1, wl_up := v }

/-- Concrete scenario: a contiguous grid of 291 slots in which week 1 has
289 missing rows (high severity) and week 2 has one missing row followed by
one present row (low severity). -/
def exData : List Row :=
  (List.range 289).map (fun i => exRow i 1 none)
    ++ [exRow 289 2 none, exRow 290 2 (some 200)]

/-- Missing rows of the concrete scenario. -/
def dmEx : List Row :=
  (List.range 289).map (fun i => exRow i 1 none) ++ [exRow 289 2 none]

theorem generate_missing_dates_ne_nil {data : List Row} (h : data ≠ []) :
    generate_missing_dates data
      = (gridRange (natMinL (data.map (fun r => r.dt)))
          (natMaxL (data.map (fun r => r.dt)))).flatMap (mergeAt data) := by
  cases data with
  | nil => exact absurd rfl h
  | cons a as => rfl

theorem gridRange_nodup (lo hi : ℕ) : (gridRange lo hi).Nodup := by
  refine List.Nodup.map ?_ (List.nodup_range _)
  intro a b h
  dsimp only at h
  omega

theorem mem_gridRange {lo hi t : ℕ} (h : t ∈ gridRange lo hi) :
    ∃ k, t = lo + 15 * k := by
  rcases List.mem_map.mp h with ⟨k, _, hk⟩
  exact ⟨k, hk.symm⟩

theorem length_gridRange (lo hi : ℕ) :
    (gridRange lo hi).length = (hi - lo) / 15 + 1 := by
  simp [gridRange]

/-- With pairwise-distinct timestamps, each grid point matches at most one
input row. -/
theorem filter_dt_len_le_one {data : List Row}
    (hnd : (data.map (fun r => r.dt)).Nodup) (t : ℕ) :
    (data.filter (fun r => r.dt = t)).length ≤ 1 := by
  have h1 : (data.map (fun r => r.dt)).filter (fun x => x = t)
      = (data.filter (fun r => r.dt = t)).map (fun r => r.dt) := by
    rw [List.filter_map]
    rfl
  have h2 : ∀ x ∈ (data.map (fun r => r.dt)).filter (fun x => x = t), x = t := by
    intro x hx
    simpa using List.of_mem_filter hx
  have h3 := List.eq_replicate_of_mem h2
  have h4 : ((data.map (fun r => r.dt)).filter (fun x => x = t)).Nodup :=
    List.Nodup.sublist (List.filter_sublist _) hnd
  rw [h3] at h4
  have h5 := List.nodup_replicate.mp h4
  have h6 : ((data.map (fun r => r.dt)).filter (fun x => x = t)).length
      = (data.filter (fun r => r.dt = t)).length := by
    rw [h1, List.length_map]
  omega

theorem mem_mergeAt_dt {data : List Row} {t : ℕ} {q : Row}
    (hq : q ∈ mergeAt data t) : q.dt = t := by
  unfold mergeAt at hq
  cases h : data.filter (fun r => r.dt = t) with
  | nil =>
    rw [h] at hq
    simp only [List.mem_singleton] at hq
    rw [hq]
    rfl
  | cons a as =>
    rw [h] at hq
    have hmem : q ∈ data.filter (fun r => r.dt = t) := by rw [h]; exact hq
    simpa using List.of_mem_filter hmem

theorem mem_mergeAt_cases {data : List Row} {t : ℕ} {q : Row}
    (hq : q ∈ mergeAt data t) : q = blankRow t ∨ q ∈ data := by
  unfold mergeAt at hq
  cases h : data.filter (fun r => r.dt = t) with
  | nil =>
    rw [h] at hq
    simp only [List.mem_singleton] at hq
    exact Or.inl hq
  | cons a as =>
    rw [h] at hq
    have hmem : q ∈ data.filter (fun r => r.dt = t) := by rw [h]; exact hq
    exact Or.inr (List.mem_of_mem_filter hmem)

theorem mergeAt_map_dt {data : List Row}
    (hnd : (data.map (fun r => r.dt)).Nodup) (t : ℕ) :
    (mergeAt data t).map (fun r => r.dt) = [t] := by
  have hle := filter_dt_len_le_one hnd t
  unfold mergeAt
  cases h : data.filter (fun r => r.dt = t) with
  | nil => rfl
  | cons a as =>
    rw [h] at hle
    cases as with
    | nil =>
      have ha : a ∈ data.filter (fun r => r.dt = t) := by rw [h]; simp
      have := List.of_mem_filter ha
      simp only [decide_eq_true_eq] at this
      simp [this]
    | cons b bs => simp at hle

theorem flatMap_mergeAt_map_dt (data : List Row)
    (hnd : (data.map (fun r => r.dt)).Nodup) (ts : List ℕ) :
    ((ts.flatMap (mergeAt data)).map (fun r => r.dt)) = ts := by
  induction ts with
  | nil => rfl
  | cons t ts ih =>
    rw [List.flatMap_cons, List.map_append, ih, mergeAt_map_dt hnd]
    rfl

/-- C2 counterexample: on an input of two valid readings with the same
timestamp, the left merge duplicates the grid row, so the output has 2 rows
where the claimed formula gives (max-min)/interval + 1 = 1, and its
timestamps are not pairwise distinct. -/
theorem c2_counterexample :
    (generate_missing_dates dupData).length
        ≠ (natMaxL (dupData.map (fun r => r.dt))
            - natMinL (dupData.map (fun r => r.dt))) / 15 + 1
      ∧ ¬ ((generate_missing_dates dupData).map (fun r => r.dt)).Nodup := by
  constructor
  · decide
  · decide

/-- C2 (amended with pairwise-distinct timestamps): for every nonempty input
whose timestamps are pairwise distinct, the output timestamps are exactly the
15-minute grid from the minimum to the maximum input timestamp, the output
has (max-min)/15 + 1 rows, no two rows share a timestamp, and every output
row whose timestamp is absent from the input carries an absent value. -/
theorem c2_grid_completeness (data : List Row) (hne : data ≠ [])
    (hnd : (data.map (fun r => r.dt)).Nodup) :
    ((generate_missing_dates data).map (fun r => r.dt)
        = gridRange (natMinL (data.map (fun r => r.dt)))
            (natMaxL (data.map (fun r => r.dt))))
      ∧ (generate_missing_dates data).length
          = (natMaxL (data.map (fun r => r.dt))
              - natMinL (data.map (fun r => r.dt))) / 15 + 1
      ∧ ((generate_missing_dates data).map (fun r => r.dt)).Nodup
      ∧ ∀ q ∈ generate_missing_dates data,
          (∀ d ∈ data, d.dt ≠ q.dt) → q.wl_up = none := by
  rw [generate_missing_dates_ne_nil hne]
  refine ⟨flatMap_mergeAt_map_dt data hnd _, ?_, ?_, ?_⟩
  · have h := flatMap_mergeAt_map_dt data hnd
      (gridRange (natMinL (data.map (fun r => r.dt)))
        (natMaxL (data.map (fun r => r.dt))))
    have hlen := congrArg List.length h
    rw [List.length_map] at hlen
    rw [hlen, length_gridRange]
  · rw [flatMap_mergeAt_map_dt data hnd]
    exact gridRange_nodup _ _
  · intro q hq habs
    rcases List.mem_flatMap.mp hq with ⟨t, _, hmem⟩
    rcases mem_mergeAt_cases hmem with hb | hd
    · rw [hb]; rfl
    · exact absurd rfl (habs q hd)

/-- Witness for the amended C2 at a concrete input with distinct timestamps. -/
theorem c2_grid_completeness_witness :
    (c2Data ≠ [] ∧ (c2Data.map (fun r => r.dt)).Nodup)
      ∧ (((generate_missing_dates c2Data).map (fun r => r.dt)
            = gridRange (natMinL (c2Data.map (fun r => r.dt)))
                (natMaxL (c2Data.map (fun r => r.dt))))
          ∧ (generate_missing_dates c2Data).length
              = (natMaxL (c2Data.map (fun r => r.dt))
                  - natMinL (c2Data.map (fun r => r.dt))) / 15 + 1
          ∧ ((generate_missing_dates c2Data).map (fun r => r.dt)).Nodup
          ∧ ∀ q ∈ generate_missing_dates c2Data,
              (∀ d ∈ c2Data, d.dt ≠ q.dt) → q.wl_up = none) :=
  ⟨⟨by decide, by decide⟩, c2_grid_completeness c2Data (by decide) (by decide)⟩

/-- C10: an input row whose timestamp is valid but off the 15-minute grid
anchored at the minimum input timestamp (its offset from the minimum is not
a multiple of 15 minutes) contributes no row to the output of
generate_missing_dates: every output timestamp is of the form min + 15k, so
the off-grid reading silently vanishes. -/
theorem c10_offgrid_rows_dropped (data : List Row) (r : Row) (hr : r ∈ data)
    (hoff : (r.dt - natMinL (data.map (fun q => q.dt))) % 15 ≠ 0) :
    ∀ q ∈ generate_missing_dates data, q.dt ≠ r.dt := by
  intro q hq
  have hne : data ≠ [] := by
    intro h
    rw [h] at hr
    exact absurd hr (List.not_mem_nil r)
  rw [generate_missing_dates_ne_nil hne] at hq
  rcases List.mem_flatMap.mp hq with ⟨t, ht, hmem⟩
  rcases mem_gridRange ht with ⟨k, hk⟩
  have hqt : q.dt = t := mem_mergeAt_dt hmem
  intro heq
  apply hoff
  rw [← heq, hqt, hk]
  omega

/-- Witness for C10: the reading at minute 20 (offset 20 from the minimum 0,
not a multiple of 15) appears nowhere in the generated grid. -/
theorem c10_offgrid_rows_dropped_witness :
    ({ blankRow 20 with wl_up := some 110 } ∈ c2Data
        ∧ ((20 : ℕ) - natMinL (c2Data.map (fun q => q.dt))) % 15 ≠ 0)
      ∧ ∀ q ∈ generate_missing_dates c2Data,
          q.dt ≠ ({ blankRow 20 with wl_up := some 110 } : Row).dt :=
  ⟨⟨by decide, by decide⟩,
    c10_offgrid_rows_dropped c2Data _ (by decide) (by decide)⟩

/-- C9: clean_data drops exactly those input rows whose timestamp fails to
parse or whose value is absent, exactly zero, or outside the plausible
sensor range 100..450, and keeps every other row unchanged: it is the
single filter by keepsRow. -/
theorem c9_clean_data_exact_filter (df : List RawRow) :
    clean_data df = df.filter keepsRow := by
  unfold clean_data
  rw [List.filter_filter, List.filter_filter]
  apply List.filter_congr
  intro r _
  cases hv : r.wl_up with
  | none => simp [keepsRow, pandasGe, pandasNe, pandasLe, hv]
  | some v =>
    cases hd : r.dtParsed with
    | none => simp [keepsRow, pandasGe, pandasNe, pandasLe, hv, hd]
    | some d =>
      simp only [keepsRow, pandasGe, pandasNe, pandasLe, hv, hd, Option.isSome_some,
        Bool.and_true, Bool.true_and, decide_eq_true_eq]
      by_cases h1 : (100 : ℚ) ≤ v <;> by_cases h2 : v ≤ (450 : ℚ) <;>
        by_cases h3 : v ≠ 0 <;> simp [h1, h2, h3]

theorem thirty_percent_iff (m n : ℕ) :
    ((3 : ℚ) / 10 * (n : ℚ) < (m : ℚ)) ↔ 3 * n < 10 * m := by
  rw [div_mul_eq_mul_div, div_lt_iff₀ (by norm_num : (0 : ℚ) < 10)]
  constructor
  · intro h
    have h2 : (3 * (n : ℚ)) < ((m : ℚ) * 10) := h
    have h3 : ((3 * n : ℕ) : ℚ) < ((m * 10 : ℕ) : ℚ) := by push_cast; exact h2
    have := Nat.cast_lt.mp h3
    omega
  · intro h
    have h3 : ((3 * n : ℕ) : ℚ) < ((10 * m : ℕ) : ℚ) := by exact_mod_cast h
    push_cast at h3
    calc (3 : ℚ) * n < 10 * m := h3
      _ = m * 10 := by ring

/-- C6 (amended to the extended variant, which is the only one carrying the
30 percent guard): the deletion routine of test.py reports no-data and
leaves the frame unchanged when no row matches; rejects and leaves the frame
unchanged when the matched rows are more than 30 percent of the frame; and
otherwise blanks the value column of exactly the matched rows, leaving all
other rows untouched. -/
theorem c6_deletion_guard (data : List Row) (s e : ℕ) :
    ((dataToDelete data s e).length = 0 →
        Test.delete_data_by_date_range data s e = (data, some DeleteMsg.noDataFound))
      ∧ (3 * data.length < 10 * (dataToDelete data s e).length →
          Test.delete_data_by_date_range data s e
            = (data, some DeleteMsg.excessiveDeletion))
      ∧ (0 < (dataToDelete data s e).length →
          10 * (dataToDelete data s e).length ≤ 3 * data.length →
          (Test.delete_data_by_date_range data s e).2 = none
            ∧ List.Forall₂ (fun r0 r1 =>
                (inRangeRow s e r0 = true → r1 = { r0 with wl_up := none })
                  ∧ (inRangeRow s e r0 = false → r1 = r0))
                data (Test.delete_data_by_date_range data s e).1) := by
  refine ⟨?_, ?_, ?_⟩
  · intro h
    simp [Test.delete_data_by_date_range, h]
  · intro h
    have hne : ¬ (dataToDelete data s e).length = 0 := by omega
    unfold Test.delete_data_by_date_range
    rw [if_neg hne, if_pos ((thirty_percent_iff _ _).mpr h)]
  · intro h1 h2
    have hne : ¬ (dataToDelete data s e).length = 0 := by omega
    have hguard : ¬ ((3 : ℚ) / 10 * (data.length : ℚ)
        < ((dataToDelete data s e).length : ℚ)) := by
      rw [thirty_percent_iff]
      omega
    constructor
    · unfold Test.delete_data_by_date_range
      rw [if_neg hne, if_neg hguard]
    · unfold Test.delete_data_by_date_range
      rw [if_neg hne, if_neg hguard]
      simp only
      rw [List.forall₂_map_right_iff, List.forall₂_same]
      intro r _
      constructor
      · intro hin
        rw [if_pos hin]
      · intro hout
        rw [hout]
        simp

/-- Witness for the amended C6: on the concrete four-row frame with a window
matching one row, the guard passes and exactly the matched row is blanked. -/
theorem c6_deletion_guard_witness :
    (0 < (dataToDelete delData 0 10).length
        ∧ 10 * (dataToDelete delData 0 10).length ≤ 3 * delData.length)
      ∧ ((Test.delete_data_by_date_range delData 0 10).2 = none
          ∧ List.Forall₂ (fun r0 r1 =>
              (inRangeRow 0 10 r0 = true → r1 = { r0 with wl_up := none })
                ∧ (inRangeRow 0 10 r0 = false → r1 = r0))
              delData (Test.delete_data_by_date_range delData 0 10).1) :=
  ⟨⟨by decide, by decide⟩,
    (c6_deletion_guard delData 0 10).2.2 (by decide) (by decide)⟩

/-- C6 counterexample: the basic variant in streamlit_app.py has no
30 percent guard.  On a two-row frame with a window matching both rows
(100 percent of the data), the claim requires the data to be returned
unchanged with a rejection, but the basic variant blanks the rows. -/
theorem c6_counterexample :
    3 * delData.length < 10 * (dataToDelete delData 0 100).length
      ∧ (App.delete_data_by_date_range delData 0 100).1 ≠ delData
      ∧ (App.delete_data_by_date_range delData 0 100).2 ≠ some DeleteMsg.excessiveDeletion := by
  refine ⟨by decide, by decide, by decide⟩

theorem mem_mergeInner_iff {a b : List (ℕ × ℚ)} {t : ℕ} {x y : ℚ} :
    (t, x, y) ∈ mergeInner a b ↔ ((t, x) ∈ a ∧ (t, y) ∈ b) := by
  unfold mergeInner
  rw [List.mem_flatMap]
  constructor
  · rintro ⟨p, hp, hmem⟩
    rcases List.mem_map.mp hmem with ⟨q, hq, heq⟩
    have hq2 := List.of_mem_filter hq
    simp only [decide_eq_true_eq] at hq2
    have h1 : p.1 = t := congrArg (fun z => z.1) heq
    have h2 : p.2 = x := congrArg (fun z => z.2.1) heq
    have h3 : q.2 = y := congrArg (fun z => z.2.2) heq
    constructor
    · have : p = (t, x) := Prod.ext h1 h2
      rw [← this]; exact hp
    · have : q = (t, y) := Prod.ext (hq2.trans h1) h3
      rw [← this]; exact List.mem_of_mem_filter hq
  · rintro ⟨ha, hb⟩
    refine ⟨(t, x), ha, ?_⟩
    rw [List.mem_map]
    refine ⟨(t, y), ?_, rfl⟩
    rw [List.mem_filter]
    exact ⟨hb, by simp⟩

theorem metrics_on_diag (pairs : List (ℚ × ℚ)) (hdiag : ∀ q ∈ pairs, q.1 = q.2) :
    mean_squared_error pairs = 0 ∧ mean_absolute_error pairs = 0
      ∧ r2_score pairs = 1 := by
  have hsum : (pairs.map (fun p => (p.1 - p.2) ^ 2)).sum = 0 := by
    apply List.sum_eq_zero
    intro z hz
    rcases List.mem_map.mp hz with ⟨q, hq, hzq⟩
    rw [← hzq, hdiag q hq, sub_self]
    norm_num
  refine ⟨?_, ?_, ?_⟩
  · unfold mean_squared_error
    rw [hsum, zero_div]
  · have habs : (pairs.map (fun p => |p.1 - p.2|)).sum = 0 := by
      apply List.sum_eq_zero
      intro z hz
      rcases List.mem_map.mp hz with ⟨q, hq, hzq⟩
      rw [← hzq, hdiag q hq, sub_self, abs_zero]
    unfold mean_absolute_error
    rw [habs, zero_div]
  · unfold r2_score
    simp only [hsum]
    by_cases hden : totalSumSquares pairs (meanQ (pairs.map (fun p => p.1))) = 0
    · rw [if_pos hden]
      simp
    · rw [if_neg hden, zero_div, sub_zero]

/-- C7: calculate_accuracy_metrics computes its three metrics over exactly
the timestamps common to both series (the inner join keeps a pairing iff the
timestamp occurs with those values on both sides); on two identical
well-formed series (nonempty, distinct timestamps) it returns MSE 0, MAE 0
and R-squared 1; and on two series with no shared timestamp it signals the
insufficient-data error instead of computing over the empty join. -/
theorem c7_metric_sanity (a b s : List (ℕ × ℚ)) :
    (∀ t x y, (t, x, y) ∈ mergeInner a b ↔ ((t, x) ∈ a ∧ (t, y) ∈ b))
      ∧ (s ≠ [] → (s.map Prod.fst).Nodup →
          calculate_accuracy_metrics s s = Except.ok ⟨0, 0, 1⟩)
      ∧ ((∀ p ∈ a, ∀ q ∈ b, p.1 ≠ q.1) →
          calculate_accuracy_metrics a b
            = Except.error MetricsError.insufficientData) := by
  refine ⟨fun t x y => mem_mergeInner_iff, ?_, ?_⟩
  · intro hne hnd
    have hdiag : ∀ q ∈ (mergeInner s s).map (fun x => (x.2.1, x.2.2)),
        q.1 = q.2 := by
      intro q hq
      rcases List.mem_map.mp hq with ⟨x, hx, hxq⟩
      obtain ⟨t, v, w⟩ := x
      have hmem := mem_mergeInner_iff.mp hx
      have heq : ((t, v) : ℕ × ℚ) = (t, w) :=
        List.inj_on_of_nodup_map hnd hmem.1 hmem.2 rfl
      have hvw : v = w := congrArg Prod.snd heq
      rw [← hxq]
      simp [hvw]
    have hpairs_ne : (mergeInner s s).map (fun x => (x.2.1, x.2.2)) ≠ [] := by
      cases s with
      | nil => exact absurd rfl hne
      | cons p rest =>
        have hmem : (p.1, p.2, p.2) ∈ mergeInner (p :: rest) (p :: rest) :=
          mem_mergeInner_iff.mpr ⟨by simp, by simp⟩
        exact List.ne_nil_of_mem (List.mem_map_of_mem _ hmem)
    obtain ⟨h1, h2, h3⟩ := metrics_on_diag _ hdiag
    unfold calculate_accuracy_metrics
    simp only
    rw [if_neg hpairs_ne, h1, h2, h3]
  · intro hdisj
    have hempty : mergeInner a b = [] := by
      cases hm : mergeInner a b with
      | nil => rfl
      | cons x xs =>
        exfalso
        have hx : x ∈ mergeInner a b := by rw [hm]; simp
        obtain ⟨t, v, w⟩ := x
        have := mem_mergeInner_iff.mp hx
        exact hdisj _ this.1 _ this.2 rfl
    unfold calculate_accuracy_metrics
    rw [hempty]
    rfl

/-- Witness for C7 at concrete series. -/
theorem c7_metric_sanity_witness :
    ((c7s ≠ [] ∧ (c7s.map Prod.fst).Nodup) ∧ (∀ p ∈ c7a, ∀ q ∈ c7b, p.1 ≠ q.1))
      ∧ calculate_accuracy_metrics c7s c7s = Except.ok ⟨0, 0, 1⟩
      ∧ calculate_accuracy_metrics c7a c7b
          = Except.error MetricsError.insufficientData :=
  ⟨⟨⟨by decide, by decide⟩, by decide⟩,
    (c7_metric_sanity c7a c7b c7s).2.1 (by decide) (by decide),
    (c7_metric_sanity c7a c7b c7s).2.2 (by decide)⟩

/-- C8 counterexample: a nonempty training scope of 2 rows gives the basic
variant a fold count of min(3, 2 div 2) = 1, below the minimum of 2 folds
cross-validation accepts, so the call fails rather than completing. -/
theorem c8_counterexample : 0 < 2 ∧ cvRuns (App.n_splits 2) 2 = false := by
  decide

/-- C8 (amended): for every training scope of at least 4 rows, the basic
variant reduces the fold count to min(3, n div 2), which stays between 2
and the scope size, so the cross-validated search runs; scopes of 1 to 3
rows still fail, and the extended variant keeps a fixed 5-fold scheme with
no reduction at all. -/
theorem c8_fold_degradation (n : ℕ) (h : 4 ≤ n) :
    cvRuns (App.n_splits n) n = true ∧ App.n_splits n ≤ 3
      ∧ Test.n_splits = 5 := by
  refine ⟨?_, ?_, rfl⟩
  · unfold cvRuns App.n_splits Nat.min
    simp only [Bool.and_eq_true, decide_eq_true_eq, Nat.min_def]
    constructor <;> (split <;> omega)
  · unfold App.n_splits Nat.min
    simp only [Nat.min_def]
    split <;> omega

/-- Witness for the amended C8 at scope size 4. -/
theorem c8_fold_degradation_witness :
    4 ≤ 4 ∧ (cvRuns (App.n_splits 4) 4 = true ∧ App.n_splits 4 ≤ 3
      ∧ Test.n_splits = 5) :=
  ⟨by decide, c8_fold_degradation 4 (by decide)⟩

theorem mem_pdUniqueGo {a : Option ℕ} :
    ∀ (l seen : List (Option ℕ)),
      a ∈ pdUniqueGo seen l ↔ (a ∈ l ∧ a ∉ seen)
  | [], seen => by simp [pdUniqueGo]
  | x :: xs, seen => by
    unfold pdUniqueGo
    by_cases hx : x ∈ seen
    · rw [if_pos hx, mem_pdUniqueGo xs seen]
      constructor
      · rintro ⟨h1, h2⟩
        exact ⟨List.mem_cons_of_mem _ h1, h2⟩
      · rintro ⟨h1, h2⟩
        rcases List.mem_cons.mp h1 with h3 | h3
        · exact absurd (h3 ▸ hx) h2
        · exact ⟨h3, h2⟩
    · rw [if_neg hx]
      constructor
      · intro h
        rcases List.mem_cons.mp h with h1 | h1
        · exact ⟨h1 ▸ List.mem_cons_self _ _, h1 ▸ hx⟩
        · rcases (mem_pdUniqueGo xs (x :: seen)).mp h1 with ⟨h2, h3⟩
          exact ⟨List.mem_cons_of_mem _ h2,
            fun hs => h3 (List.mem_cons_of_mem _ hs)⟩
      · rintro ⟨h1, h2⟩
        rcases List.mem_cons.mp h1 with h3 | h3
        · exact h3 ▸ List.mem_cons_self _ _
        · by_cases hax : a = x
          · exact hax ▸ List.mem_cons_self _ _
          · refine List.mem_cons_of_mem _
              ((mem_pdUniqueGo xs (x :: seen)).mpr ⟨h3, ?_⟩)
            intro hs
            rcases List.mem_cons.mp hs with h4 | h4
            · exact hax h4
            · exact h2 h4

theorem mem_pdUnique {l : List (Option ℕ)} {a : Option ℕ} :
    a ∈ pdUnique l ↔ a ∈ l := by
  unfold pdUnique
  rw [mem_pdUniqueGo l []]
  simp

theorem pdUniqueGo_nodup :
    ∀ (l seen : List (Option ℕ)), (pdUniqueGo seen l).Nodup
  | [], seen => by simp [pdUniqueGo]
  | x :: xs, seen => by
    unfold pdUniqueGo
    by_cases hx : x ∈ seen
    · rw [if_pos hx]
      exact pdUniqueGo_nodup xs seen
    · rw [if_neg hx]
      refine List.nodup_cons.mpr ⟨?_, pdUniqueGo_nodup xs (x :: seen)⟩
      intro hmem
      exact ((mem_pdUniqueGo xs (x :: seen)).mp hmem).2
        (List.mem_cons_self _ _)

theorem pdUnique_nodup (l : List (Option ℕ)) : (pdUnique l).Nodup :=
  pdUniqueGo_nodup l []

theorem rowAt_updAt (g : List Row) (t : ℕ) (upd : Row → Row)
    (hdt : ∀ r, (upd r).dt = r.dt) (t2 : ℕ) :
    rowAt (updAt g t upd) t2
      = (rowAt g t2).map (fun r => if r.dt = t then upd r else r) := by
  unfold rowAt updAt
  rw [List.find?_map]
  have hp : ((fun r => decide (r.dt = t2)) ∘ fun r => if r.dt = t then upd r else r)
      = (fun r => decide (r.dt = t2)) := by
    funext r
    simp only [Function.comp]
    rw [decide_eq_decide]
    by_cases h : r.dt = t
    · rw [if_pos h, hdt]
    · rw [if_neg h]
  rw [hp]

theorem rowAt_updAt_ne (g : List Row) (t : ℕ) (upd : Row → Row)
    (hdt : ∀ r, (upd r).dt = r.dt) (t2 : ℕ) (hne : t2 ≠ t) :
    rowAt (updAt g t upd) t2 = rowAt g t2 := by
  rw [rowAt_updAt g t upd hdt t2]
  cases hfound : rowAt g t2 with
  | none => rfl
  | some r0 =>
    have hdt0 : r0.dt = t2 := by
      have := List.find?_some hfound
      simpa using this
    have hmap : (some r0).map (fun r => if r.dt = t then upd r else r)
        = some (if r0.dt = t then upd r0 else r0) := rfl
    rw [hmap, if_neg (by rw [hdt0]; exact hne)]

theorem rowAt_updAt_self (g : List Row) (t : ℕ) (upd : Row → Row)
    (hdt : ∀ r, (upd r).dt = r.dt) :
    rowAt (updAt g t upd) t = (rowAt g t).map upd := by
  rw [rowAt_updAt g t upd hdt t]
  cases hfound : rowAt g t with
  | none => rfl
  | some r0 =>
    have hdt0 : r0.dt = t := by
      have := List.find?_some hfound
      simpa using this
    have hmap : (some r0).map (fun r => if r.dt = t then upd r else r)
        = some (if r0.dt = t then upd r0 else r0) := rfl
    have hmap2 : (some r0).map upd = some (upd r0) := rfl
    rw [hmap, hmap2, if_pos hdt0]

theorem rowAt_map (g : List Row) (f : Row → Row) (hdt : ∀ r, (f r).dt = r.dt)
    (t : ℕ) : rowAt (g.map f) t = (rowAt g t).map f := by
  unfold rowAt
  rw [List.find?_map]
  have hp : ((fun r => decide (r.dt = t)) ∘ f) = (fun r => decide (r.dt = t)) := by
    funext r
    simp only [Function.comp, hdt]
  rw [hp]

theorem rowAt_isSome_of_mem_dts {g : List Row} {t : ℕ}
    (h : t ∈ g.map (fun r => r.dt)) : (rowAt g t).isSome := by
  rcases List.mem_map.mp h with ⟨r, hr, hrt⟩
  unfold rowAt
  rw [List.find?_isSome]
  exact ⟨r, hr, by simpa using hrt⟩

theorem rowAt_of_mem_nodup {g : List Row} {r : Row}
    (hnd : (g.map (fun q => q.dt)).Nodup) (hr : r ∈ g) :
    rowAt g r.dt = some r := by
  induction g with
  | nil => exact absurd hr (List.not_mem_nil r)
  | cons x xs ih =>
    rw [List.map_cons] at hnd
    have hnd2 := List.nodup_cons.mp hnd
    rcases List.mem_cons.mp hr with h1 | h1
    · subst h1
      unfold rowAt
      exact List.find?_cons_of_pos _ (by simp)
    · have hne : x.dt ≠ r.dt := by
        intro heq
        exact hnd2.1 (heq ▸ List.mem_map.mpr ⟨r, h1, rfl⟩)
      unfold rowAt
      rw [List.find?_cons_of_neg _ (by simpa using hne)]
      exact ih hnd2.2 h1

/-- A row cannot carry the datetime of a row of another week group when the
grid has duplicate-free timestamps. -/
theorem dt_not_in_other_group (dc : List Row) (s e : ℕ)
    (hg : ((data_with_all_dates dc s e).map (fun q => q.dt)).Nodup)
    {r : Row} {w u : Option ℕ}
    (hr : r ∈ groupOf (data_missing dc s e) w) (hne : u ≠ w) :
    r.dt ∉ (groupOf (data_missing dc s e) u).map (fun q => q.dt) := by
  intro hmem
  rcases List.mem_map.mp hmem with ⟨q, hq, hqt⟩
  have hqdm : q ∈ data_missing dc s e := List.mem_of_mem_filter hq
  have hrdm : r ∈ data_missing dc s e := List.mem_of_mem_filter hr
  have hqg : q ∈ data_with_all_dates dc s e := List.mem_of_mem_filter hqdm
  have hrg : r ∈ data_with_all_dates dc s e := List.mem_of_mem_filter hrdm
  have h1 := rowAt_of_mem_nodup hg hqg
  have h2 := rowAt_of_mem_nodup hg hrg
  rw [hqt] at h1
  rw [h1] at h2
  have hqr : q = r := by injection h2
  have hw := List.of_mem_filter hr
  have hu := List.of_mem_filter hq
  rw [hqr] at hu
  apply hne
  unfold pandasEqN at hw hu
  cases hrw : r.week with
  | none => rw [hrw] at hw; simp at hw
  | some k =>
    rw [hrw] at hw hu
    cases w with
    | none => simp at hw
    | some kw =>
      cases u with
      | none => simp at hu
      | some ku =>
        simp only [decide_eq_true_eq] at hw hu
        rw [← hw, ← hu]

/-- The grid built from a duplicate-free window has duplicate-free
timestamps. -/
theorem grid_dts_nodup (dc : List Row) (s e : ℕ)
    (hnd : ((windowData dc s e).map (fun r => r.dt)).Nodup) :
    ((data_with_all_dates dc s e).map (fun r => r.dt)).Nodup := by
  unfold data_with_all_dates
  cases hw : windowData dc s e with
  | nil => simp [generate_missing_dates]
  | cons a as =>
    rw [← hw]
    rw [generate_missing_dates_ne_nil (by rw [hw]; exact List.cons_ne_nil a as)]
    rw [flatMap_mergeAt_map_dt _ hnd]
    exact gridRange_nodup _ _

theorem group_dts_nodup (dc : List Row) (s e : ℕ)
    (hg : ((data_with_all_dates dc s e).map (fun q => q.dt)).Nodup)
    (w : Option ℕ) :
    ((groupOf (data_missing dc s e) w).map (fun q => q.dt)).Nodup := by
  have hsub : (groupOf (data_missing dc s e) w).Sublist (data_with_all_dates dc s e) :=
    List.Sublist.trans (List.filter_sublist _) (List.filter_sublist _)
  exact List.Nodup.sublist (hsub.map _) hg

theorem classify_fold_spec (dm : List Row) (l : List (Option ℕ))
    (acc : List (Option ℕ) × List (Option ℕ)) :
    (l.foldl
        (fun acc w =>
          if nullCountWeek dm w ≤ 288 then (acc.1 ++ [w], acc.2)
          else (acc.1, acc.2 ++ [w])) acc)
      = (acc.1 ++ l.filter (fun w => nullCountWeek dm w ≤ 288),
         acc.2 ++ l.filter (fun w => ¬ (nullCountWeek dm w ≤ 288))) := by
  induction l generalizing acc with
  | nil => simp
  | cons x xs ih =>
    rw [List.foldl_cons]
    by_cases hx : nullCountWeek dm x ≤ 288
    · rw [if_pos hx, ih]
      rw [List.filter_cons_of_pos (by simp [hx]),
          List.filter_cons_of_neg (by simp [hx])]
      simp
    · rw [if_neg hx, ih]
      rw [List.filter_cons_of_neg (by simp [hx]),
          List.filter_cons_of_pos (by simp [hx])]
      simp

theorem classifyWeeks_fst (dm : List Row) :
    (classifyWeeks dm).1
      = (weeks_with_missing dm).filter (fun w => nullCountWeek dm w ≤ 288) := by
  unfold classifyWeeks
  rw [classify_fold_spec]
  simp

theorem classifyWeeks_snd (dm : List Row) :
    (classifyWeeks dm).2
      = (weeks_with_missing dm).filter
          (fun w => ¬ (nullCountWeek dm w ≤ 288)) := by
  unfold classifyWeeks
  rw [classify_fold_spec]
  simp

theorem classify_disjoint (dm : List Row) {w : Option ℕ}
    (h1 : w ∈ (classifyWeeks dm).1) : w ∉ (classifyWeeks dm).2 := by
  rw [classifyWeeks_fst] at h1
  rw [classifyWeeks_snd]
  intro h2
  have a1 := List.of_mem_filter h1
  have a2 := List.of_mem_filter h2
  simp only [decide_eq_true_eq] at a1 a2
  exact a2 a1

theorem classify_snd_nodup (dm : List Row) : ((classifyWeeks dm).2).Nodup := by
  rw [classifyWeeks_snd]
  exact List.Nodup.sublist (List.filter_sublist _) (pdUnique_nodup _)

theorem classify_fst_nodup (dm : List Row) : ((classifyWeeks dm).1).Nodup := by
  rw [classifyWeeks_fst]
  exact List.Nodup.sublist (List.filter_sublist _) (pdUnique_nodup _)

theorem rowAt_fillFold_notmem (F : Row → Row → Row)
    (hdt : ∀ r q, (F r q).dt = q.dt) (rows : List Row) (g : List Row) (t : ℕ)
    (h : t ∉ rows.map (fun r => r.dt)) :
    rowAt (rows.foldl (fun g2 r => updAt g2 r.dt (F r)) g) t = rowAt g t := by
  induction rows generalizing g with
  | nil => rfl
  | cons x xs ih =>
    rw [List.map_cons] at h
    rw [List.foldl_cons]
    rw [ih _ (fun hmem => h (List.mem_cons_of_mem _ hmem))]
    exact rowAt_updAt_ne g x.dt (F x) (hdt x) t
      (fun heq => h (heq ▸ List.mem_cons_self _ _))

theorem rowAt_fillFold_mem (F : Row → Row → Row)
    (hdt : ∀ r q, (F r q).dt = q.dt) (rows : List Row) (g : List Row) (r : Row)
    (hnd : (rows.map (fun q => q.dt)).Nodup) (hr : r ∈ rows) :
    rowAt (rows.foldl (fun g2 q => updAt g2 q.dt (F q)) g) r.dt
      = (rowAt g r.dt).map (F r) := by
  induction rows generalizing g with
  | nil => exact absurd hr (List.not_mem_nil r)
  | cons x xs ih =>
    rw [List.map_cons] at hnd
    have hnd2 := List.nodup_cons.mp hnd
    rw [List.foldl_cons]
    rcases List.mem_cons.mp hr with h1 | h1
    · subst h1
      rw [rowAt_fillFold_notmem F hdt xs _ r.dt hnd2.1]
      exact rowAt_updAt_self g r.dt (F r) (hdt r)
    · have hne : r.dt ≠ x.dt := by
        intro heq
        exact hnd2.1 (heq ▸ List.mem_map.mpr ⟨r, h1, rfl⟩)
      rw [ih _ hnd2.2 h1, rowAt_updAt_ne g x.dt (F x) (hdt x) r.dt hne]

theorem rowAt_weekFold_notouch (step : List Row → Option ℕ → List Row)
    (ws : List (Option ℕ)) (t : ℕ)
    (h : ∀ u ∈ ws, ∀ g2, rowAt (step g2 u) t = rowAt g2 t) :
    ∀ g, rowAt (ws.foldl step g) t = rowAt g t := by
  induction ws with
  | nil => intro g; rfl
  | cons u us ih =>
    intro g
    rw [List.foldl_cons,
      ih (fun v hv g2 => h v (List.mem_cons_of_mem _ hv) g2) _,
      h u (List.mem_cons_self _ _)]

theorem rowAt_weekFold_split (step : List Row → Option ℕ → List Row)
    (l1 l2 : List (Option ℕ)) (w : Option ℕ) (t : ℕ) (g : List Row)
    (f : Option Row → Option Row)
    (h1 : ∀ u ∈ l1, ∀ g2, rowAt (step g2 u) t = rowAt g2 t)
    (h2 : ∀ u ∈ l2, ∀ g2, rowAt (step g2 u) t = rowAt g2 t)
    (hw : ∀ g2, rowAt (step g2 w) t = f (rowAt g2 t)) :
    rowAt ((l1 ++ w :: l2).foldl step g) t = f (rowAt g t) := by
  rw [List.foldl_append, List.foldl_cons]
  rw [rowAt_weekFold_notouch step l2 t h2 _, hw,
    rowAt_weekFold_notouch step l1 t h1 g]

theorem App.lowStep_notouch (train : List Row → Row → ℚ)
    (dm dnm g : List Row) (w : Option ℕ) (t : ℕ)
    (ht : t ∉ (groupOf dm w).map (fun r => r.dt)) :
    rowAt (App.lowStep train dm dnm g w) t = rowAt g t := by
  unfold App.lowStep
  split
  · exact rowAt_fillFold_notmem
      (fun r q =>
        { q with wl_up := some (train (dnm.filter (fun r2 => pandasEqN r2.week w)) r) })
      (fun r q => rfl) _ g t ht
  · rfl

theorem App.highStep_notouch (train : List Row → Row → ℚ)
    (dc dm pool g : List Row) (w : Option ℕ) (t : ℕ)
    (ht : t ∉ (groupOf dm w).map (fun r => r.dt)) :
    rowAt (App.highStep train dc dm pool g w) t = rowAt g t := by
  unfold App.highStep
  exact rowAt_fillFold_notmem
    (fun r q => { q with wl_up := some (train (App.highScope dc dm pool w) r) })
    (fun r q => rfl) _ g t ht

theorem App.highStep_writes (train : List Row → Row → ℚ)
    (dc dm pool g : List Row) (w : Option ℕ) (r : Row)
    (hnd : ((groupOf dm w).map (fun q => q.dt)).Nodup)
    (hr : r ∈ groupOf dm w) :
    rowAt (App.highStep train dc dm pool g w) r.dt
      = (rowAt g r.dt).map (fun q =>
          { q with wl_up := some (train (App.highScope dc dm pool w) r) }) := by
  unfold App.highStep
  exact rowAt_fillFold_mem
    (fun a q => { q with wl_up := some (train (App.highScope dc dm pool w) a) })
    (fun a q => rfl) _ g r hnd hr

/-- C3: for every window, the partition loop assigns each week carrying
missing rows to exactly one of the low-severity list (missing count at most
288) and the high-severity list (missing count above 288): the two lists
are disjoint, their union is exactly the list of weeks of missing rows,
and, when every missing row carries a week feature (as the featured grid
guarantees), every missing row belongs to the group of exactly one
classified week. -/
theorem c3_partition_disjoint_cover (dc : List Row) (s e : ℕ)
    (hwk : ∀ r ∈ data_missing dc s e, r.week.isSome) :
    (∀ w, ¬ (w ∈ (classifyWeeks (data_missing dc s e)).1
        ∧ w ∈ (classifyWeeks (data_missing dc s e)).2))
      ∧ (∀ w, (w ∈ (classifyWeeks (data_missing dc s e)).1
            ∨ w ∈ (classifyWeeks (data_missing dc s e)).2)
          ↔ w ∈ weeks_with_missing (data_missing dc s e))
      ∧ (∀ w, w ∈ (classifyWeeks (data_missing dc s e)).1
          → nullCountWeek (data_missing dc s e) w ≤ 288)
      ∧ (∀ w, w ∈ (classifyWeeks (data_missing dc s e)).2
          → 288 < nullCountWeek (data_missing dc s e) w)
      ∧ ∀ r ∈ data_missing dc s e, ∃ w,
          (w ∈ (classifyWeeks (data_missing dc s e)).1
            ∨ w ∈ (classifyWeeks (data_missing dc s e)).2)
          ∧ r ∈ groupOf (data_missing dc s e) w
          ∧ ∀ u, r ∈ groupOf (data_missing dc s e) u → u = w := by
  have hunion : ∀ w, (w ∈ (classifyWeeks (data_missing dc s e)).1
      ∨ w ∈ (classifyWeeks (data_missing dc s e)).2)
      ↔ w ∈ weeks_with_missing (data_missing dc s e) := by
    intro w
    rw [classifyWeeks_fst, classifyWeeks_snd]
    constructor
    · intro h
      rcases h with h | h
      · exact List.mem_of_mem_filter h
      · exact List.mem_of_mem_filter h
    · intro h
      by_cases hc : nullCountWeek (data_missing dc s e) w ≤ 288
      · exact Or.inl (List.mem_filter.mpr ⟨h, by simp [hc]⟩)
      · exact Or.inr (List.mem_filter.mpr ⟨h, by simp [hc]⟩)
  refine ⟨?_, hunion, ?_, ?_, ?_⟩
  · intro w hboth
    exact classify_disjoint _ hboth.1 hboth.2
  · intro w hwmem
    rw [classifyWeeks_fst] at hwmem
    have := List.of_mem_filter hwmem
    simpa using this
  · intro w hwmem
    rw [classifyWeeks_snd] at hwmem
    have := List.of_mem_filter hwmem
    simp only [decide_eq_true_eq] at this
    omega
  · intro r hr
    rcases Option.isSome_iff_exists.mp (hwk r hr) with ⟨k, hk⟩
    refine ⟨some k, ?_, ?_, ?_⟩
    · rw [hunion]
      unfold weeks_with_missing
      rw [mem_pdUnique]
      exact List.mem_map.mpr ⟨r, hr, hk⟩
    · unfold groupOf
      rw [List.mem_filter]
      refine ⟨hr, ?_⟩
      rw [hk]
      simp [pandasEqN]
    · intro u hu
      have := List.of_mem_filter hu
      rw [hk] at this
      cases u with
      | none => simp [pandasEqN] at this
      | some ku =>
        simp only [pandasEqN, decide_eq_true_eq] at this
        rw [this]

/-- Witness for C3 at a concrete window. -/
theorem c3_partition_disjoint_cover_witness :
    (∀ r ∈ data_missing c3Data 0 100, r.week.isSome)
      ∧ ((∀ w, ¬ (w ∈ (classifyWeeks (data_missing c3Data 0 100)).1
            ∧ w ∈ (classifyWeeks (data_missing c3Data 0 100)).2))
        ∧ (∀ w, (w ∈ (classifyWeeks (data_missing c3Data 0 100)).1
              ∨ w ∈ (classifyWeeks (data_missing c3Data 0 100)).2)
            ↔ w ∈ weeks_with_missing (data_missing c3Data 0 100))
        ∧ (∀ w, w ∈ (classifyWeeks (data_missing c3Data 0 100)).1
            → nullCountWeek (data_missing c3Data 0 100) w ≤ 288)
        ∧ (∀ w, w ∈ (classifyWeeks (data_missing c3Data 0 100)).2
            → 288 < nullCountWeek (data_missing c3Data 0 100) w)
        ∧ ∀ r ∈ data_missing c3Data 0 100, ∃ w,
            (w ∈ (classifyWeeks (data_missing c3Data 0 100)).1
              ∨ w ∈ (classifyWeeks (data_missing c3Data 0 100)).2)
            ∧ r ∈ groupOf (data_missing c3Data 0 100) w
            ∧ ∀ u, r ∈ groupOf (data_missing c3Data 0 100) u → u = w) :=
  ⟨by decide, c3_partition_disjoint_cover c3Data 0 100 (by decide)⟩

theorem map_projCore_setPrevCol :
    ∀ (g : List Row) (vs : List (Option ℚ)),
      (Test.setPrevCol g vs).map projCore = g.map projCore
  | [], vs => by cases vs <;> rfl
  | r :: rs, [] => rfl
  | r :: rs, v :: vs => by
    show projCore { r with wl_up_prev := v } :: (Test.setPrevCol rs vs).map projCore
      = projCore r :: rs.map projCore
    rw [map_projCore_setPrevCol rs vs]
    rfl

theorem map_projCore_interpPrevCol (g : List Row) :
    (Test.interpPrevCol g).map projCore = g.map projCore :=
  map_projCore_setPrevCol g _

theorem map_projDV_of_projCore {g1 g2 : List Row}
    (h : g1.map projCore = g2.map projCore) :
    g1.map projDV = g2.map projDV := by
  have h1 : g1.map projDV
      = (g1.map projCore).map (fun c => (c.1, c.2.1)) := by
    rw [List.map_map]; rfl
  have h2 : g2.map projDV
      = (g2.map projCore).map (fun c => (c.1, c.2.1)) := by
    rw [List.map_map]; rfl
  rw [h1, h2, h]

theorem map_projDV_updAt (g : List Row) (t : ℕ) (upd : Row → Row)
    (h : ∀ r, projDV (upd r) = projDV r) :
    (updAt g t upd).map projDV = g.map projDV := by
  unfold updAt
  rw [List.map_map]
  apply List.map_congr_left
  intro r _
  simp only [Function.comp]
  by_cases hdt : r.dt = t
  · rw [if_pos hdt, h]
  · rw [if_neg hdt]

theorem map_projDV_fillFold_forecast (model : Row → ℚ) (now : ℕ)
    (rows : List Row) :
    ∀ g : List Row,
      ((rows.foldl (fun g2 r => setForecast g2 r.dt (model r) now) g).map projDV)
        = g.map projDV := by
  induction rows with
  | nil => intro g; rfl
  | cons x xs ih =>
    intro g
    rw [List.foldl_cons, ih]
    exact map_projDV_updAt g x.dt _ (fun r => rfl)

theorem map_projDV_lowStep (train : List Row → Row → ℚ) (now : ℕ)
    (dm dnm g : List Row) (w : Option ℕ) :
    (Test.lowStep train now dm dnm g w).map projDV = g.map projDV := by
  unfold Test.lowStep
  split
  · exact map_projDV_fillFold_forecast _ now _ g
  · rfl

theorem map_projDV_highStep (train : List Row → Row → ℚ) (now : ℕ)
    (dc dm pool g : List Row) (w : Option ℕ) :
    (Test.highStep train now dc dm pool g w).map projDV = g.map projDV := by
  unfold Test.highStep
  exact map_projDV_fillFold_forecast _ now _ g

theorem map_projDV_weekFold (step : List Row → Option ℕ → List Row)
    (ws : List (Option ℕ))
    (h : ∀ g2 u, (step g2 u).map projDV = g2.map projDV) :
    ∀ g, ((ws.foldl step g).map projDV) = g.map projDV := by
  induction ws with
  | nil => intro g; rfl
  | cons u us ih =>
    intro g
    rw [List.foldl_cons, ih, h]

theorem map_projDV_lowGrid (train : List Row → Row → ℚ) (now : ℕ)
    (dc : List Row) (s e : ℕ) :
    (Test.lowGrid train now dc s e).map projDV
      = (data_with_all_dates dc s e).map projDV := by
  unfold Test.lowGrid
  rw [map_projDV_weekFold _ _ (fun g2 u => map_projDV_lowStep train now _ _ g2 u)]
  exact map_projDV_of_projCore (map_projCore_interpPrevCol _)

theorem map_projDV_mergeDisplay (g : List Row) :
    (g.map Test.mergeDisplay).map projDV = g.map projDV := by
  rw [List.map_map]
  apply List.map_congr_left
  intro r _
  rfl

theorem filter_isSome_projDV_congr :
    ∀ (g1 g2 : List Row), g1.map projDV = g2.map projDV →
      (g1.filter (fun r => r.wl_up.isSome)).map projDV
        = (g2.filter (fun r => r.wl_up.isSome)).map projDV
  | [], [], _ => rfl
  | [], b :: bs, h => by simp at h
  | a :: as, [], h => by simp at h
  | a :: as, b :: bs, h => by
    rw [List.map_cons, List.map_cons] at h
    injection h with h1 h2
    have hup : a.wl_up = b.wl_up := congrArg (fun p => p.2) h1
    by_cases hs : a.wl_up.isSome
    · rw [List.filter_cons_of_pos (by simpa using hs),
        List.filter_cons_of_pos (by rw [← hup]; simpa using hs)]
      rw [List.map_cons, List.map_cons, h1,
        filter_isSome_projDV_congr as bs h2]
    · rw [List.filter_cons_of_neg (by simpa using hs),
        List.filter_cons_of_neg (by rw [← hup]; simpa using hs)]
      exact filter_isSome_projDV_congr as bs h2

theorem map_dt_interpPrevCol (g : List Row) :
    (Test.interpPrevCol g).map (fun q => q.dt) = g.map (fun q => q.dt) := by
  have h := map_projCore_interpPrevCol g
  have h1 : ∀ g2 : List Row,
      g2.map (fun q => q.dt) = (g2.map projCore).map (fun c => c.1) := by
    intro g2
    rw [List.map_map]
    rfl
  rw [h1, h1, h]

theorem Test.lowStep_untouched (train : List Row → Row → ℚ) (now : ℕ)
    (dm dnm g : List Row) (w : Option ℕ) (t : ℕ)
    (ht : t ∉ (groupOf dm w).map (fun r => r.dt)) :
    rowAt (Test.lowStep train now dm dnm g w) t = rowAt g t := by
  unfold Test.lowStep
  split
  · exact rowAt_fillFold_notmem
      (fun r q => { q with
        wl_forecast := some (train (dnm.filter (fun r2 => pandasEqN r2.week w)) r),
        tstamp := some now })
      (fun r q => rfl) _ g t ht
  · rfl

theorem Test.highStep_untouched (train : List Row → Row → ℚ) (now : ℕ)
    (dc dm pool g : List Row) (w : Option ℕ) (t : ℕ)
    (ht : t ∉ (groupOf dm w).map (fun r => r.dt)) :
    rowAt (Test.highStep train now dc dm pool g w) t = rowAt g t := by
  unfold Test.highStep
  exact rowAt_fillFold_notmem
    (fun r q => { q with
      wl_forecast := some (train (Test.highScope dc dm pool w) r),
      tstamp := some now })
    (fun r q => rfl) _ g t ht

theorem Test.highStep_records (train : List Row → Row → ℚ) (now : ℕ)
    (dc dm pool g : List Row) (w : Option ℕ) (r : Row)
    (hnd : ((groupOf dm w).map (fun q => q.dt)).Nodup)
    (hr : r ∈ groupOf dm w) :
    rowAt (Test.highStep train now dc dm pool g w) r.dt
      = (rowAt g r.dt).map (fun q => { q with
          wl_forecast := some (train (Test.highScope dc dm pool w) r),
          tstamp := some now }) := by
  unfold Test.highStep
  exact rowAt_fillFold_mem
    (fun a q => { q with
      wl_forecast := some (train (Test.highScope dc dm pool w) a),
      tstamp := some now })
    (fun a q => rfl) _ g r hnd hr

/-- C4: for every high-severity week w, with adjacency clamped to the
minimum and maximum week carrying missing rows (no wraparound across year
boundaries), each orchestrator trains the model of w on the scope its
highScope selects: the month scope over all present rows of the cleaned
frame when the clamped adjacent next week also has more than 288 missing
rows, and otherwise the union of the clamped adjacent prior and next weeks
taken from the recomputed post-low-severity present pool (extended variant:
plus the present rows of the prior calendar month, as Test.highScope
carries).  That model prediction reaches every missing row of w: the basic
variant stores it in the value slot, the extended variant records it in the
wl_forecast column paired with the synthesis time. -/
theorem c4_high_severity_scope (train : List Row → Row → ℚ) (now : ℕ)
    (dc : List Row) (s e : ℕ)
    (hnd : ((windowData dc s e).map (fun r => r.dt)).Nodup)
    (w : Option ℕ) (hw : w ∈ (classifyWeeks (data_missing dc s e)).2) :
    ∀ r ∈ groupOf (data_missing dc s e) w,
      (rowAt (App.handle_missing_values_by_week train dc s e) r.dt
        = some { r with wl_up := some (train
            (App.highScope dc (data_missing dc s e)
              (App.pool1 train dc s e) w) r) })
      ∧ (rowAt (Test.handle_missing_values_by_week train now dc s e) r.dt).map
            (fun q => (q.wl_forecast, q.tstamp))
          = some (some (train
              (Test.highScope dc (data_missing dc s e)
                (Test.pool1 train now dc s e) w) r), some now) := by
  intro r hr
  have hg := grid_dts_nodup dc s e hnd
  have hrdm : r ∈ data_missing dc s e := List.mem_of_mem_filter hr
  have hrg : r ∈ data_with_all_dates dc s e := List.mem_of_mem_filter hrdm
  have hdm_ne : ¬ (data_missing dc s e).length = 0 := by
    intro h0
    rw [List.length_eq_zero] at h0
    rw [h0] at hrdm
    exact List.not_mem_nil r hrdm
  rcases List.append_of_mem hw with ⟨l1, l2, hsplit⟩
  have hnodupM := classify_snd_nodup (data_missing dc s e)
  rw [hsplit] at hnodupM
  have hwnl1 : w ∉ l1 := fun hmem =>
    (List.disjoint_of_nodup_append hnodupM) hmem (List.mem_cons_self _ _)
  have hwnl2 : w ∉ l2 :=
    (List.nodup_cons.mp (List.Nodup.of_append_right hnodupM)).1
  have hlowne : ∀ u ∈ (classifyWeeks (data_missing dc s e)).1, u ≠ w := by
    intro u hu he
    exact classify_disjoint _ (he ▸ hu) hw
  constructor
  · have hstep_notouch : ∀ u, u ≠ w → ∀ g2,
        rowAt (App.highStep train dc (data_missing dc s e)
          (App.pool1 train dc s e) g2 u) r.dt = rowAt g2 r.dt := by
      intro u hu g2
      exact App.highStep_notouch _ _ _ _ _ _ _
        (dt_not_in_other_group dc s e hg hr hu)
    unfold App.handle_missing_values_by_week
    rw [if_neg hdm_ne, hsplit]
    rw [rowAt_weekFold_split _ l1 l2 w r.dt _
      (fun o => o.map (fun q =>
        { q with wl_up := some (train
            (App.highScope dc (data_missing dc s e)
              (App.pool1 train dc s e) w) r) }))
      (fun u hu g2 => hstep_notouch u (fun he => hwnl1 (he ▸ hu)) g2)
      (fun u hu g2 => hstep_notouch u (fun he => hwnl2 (he ▸ hu)) g2)
      (fun g2 => App.highStep_writes train dc _ _ g2 w r
        (group_dts_nodup dc s e hg w) hr)]
    have hlow : rowAt (App.lowGrid train dc s e) r.dt
        = rowAt (data_with_all_dates dc s e) r.dt := by
      unfold App.lowGrid
      apply rowAt_weekFold_notouch
      intro u hu g2
      exact App.lowStep_notouch _ _ _ _ _ _
        (dt_not_in_other_group dc s e hg hr (hlowne u hu))
    rw [hlow, rowAt_of_mem_nodup hg hrg]
    rfl
  · have hstep_notouchT : ∀ u, u ≠ w → ∀ g2,
        rowAt (Test.highStep train now dc (data_missing dc s e)
          (Test.pool1 train now dc s e) g2 u) r.dt = rowAt g2 r.dt := by
      intro u hu g2
      exact Test.highStep_untouched _ _ _ _ _ _ _ _
        (dt_not_in_other_group dc s e hg hr hu)
    unfold Test.handle_missing_values_by_week
    rw [if_neg hdm_ne]
    rw [rowAt_map _ Test.mergeDisplay (fun q => rfl) r.dt]
    rw [hsplit]
    rw [rowAt_weekFold_split _ l1 l2 w r.dt _
      (fun o => o.map (fun q =>
        { q with
          wl_forecast := some (train
            (Test.highScope dc (data_missing dc s e)
              (Test.pool1 train now dc s e) w) r),
          tstamp := some now }))
      (fun u hu g2 => hstep_notouchT u (fun he => hwnl1 (he ▸ hu)) g2)
      (fun u hu g2 => hstep_notouchT u (fun he => hwnl2 (he ▸ hu)) g2)
      (fun g2 => Test.highStep_records train now dc _ _ g2 w r
        (group_dts_nodup dc s e hg w) hr)]
    have hlow : rowAt (Test.lowGrid train now dc s e) r.dt
        = rowAt (Test.interpPrevCol (data_with_all_dates dc s e)) r.dt := by
      unfold Test.lowGrid
      apply rowAt_weekFold_notouch
      intro u hu g2
      exact Test.lowStep_untouched _ _ _ _ _ _ _
        (dt_not_in_other_group dc s e hg hr (hlowne u hu))
    rw [hlow]
    have hsome : (rowAt (Test.interpPrevCol
        (data_with_all_dates dc s e)) r.dt).isSome := by
      apply rowAt_isSome_of_mem_dts
      rw [map_dt_interpPrevCol]
      exact List.mem_map.mpr ⟨r, hrg, rfl⟩
    rcases Option.isSome_iff_exists.mp hsome with ⟨q, hq⟩
    rw [hq]
    rfl

/-- On a duplicate-free grid, every grid row sharing the datetime of a
missing row is itself missing. -/
theorem missing_dt_missing (dc : List Row) (s e : ℕ)
    (hg : ((data_with_all_dates dc s e).map (fun q => q.dt)).Nodup) :
    ∀ r ∈ data_missing dc s e, ∀ p ∈ data_with_all_dates dc s e,
      p.dt = r.dt → p.wl_up = none := by
  intro r hr p hp hdt
  have h1 := rowAt_of_mem_nodup hg (List.mem_of_mem_filter hr)
  have h2 := rowAt_of_mem_nodup hg hp
  rw [hdt, h1] at h2
  have hpr : p = r := by
    injection h2 with h3
    exact h3.symm
  have hmiss := List.of_mem_filter hr
  simp only [Option.isNone_iff_eq_none, decide_eq_true_eq] at hmiss
  rw [hpr]
  exact hmiss

theorem know_updAt_forecast (grid0 g : List Row) (t : ℕ) (v : ℚ) (now : ℕ)
    (hproj : g.map projDV = grid0.map projDV)
    (hmiss : ∀ p ∈ grid0, p.dt = t → p.wl_up = none)
    (hK : Know now g) :
    Know now (updAt g t
      (fun q => { q with wl_forecast := some v, tstamp := some now })) := by
  intro q hq hf
  rcases List.mem_map.mp hq with ⟨q0, hq0, hq0e⟩
  by_cases hdt : q0.dt = t
  · rw [if_pos hdt] at hq0e
    have hup : q0.wl_up = none := by
      have hmem : projDV q0 ∈ grid0.map projDV := by
        rw [← hproj]
        exact List.mem_map.mpr ⟨q0, hq0, rfl⟩
      rcases List.mem_map.mp hmem with ⟨p, hp, hpe⟩
      have hpd : p.dt = q0.dt := congrArg (fun c => c.1) hpe
      have hpu : p.wl_up = q0.wl_up := congrArg (fun c => c.2) hpe
      rw [← hpu]
      exact hmiss p hp (by rw [hpd, hdt])
    rw [← hq0e]
    exact ⟨hup, rfl⟩
  · rw [if_neg hdt] at hq0e
    rw [← hq0e] at hf ⊢
    exact hK q0 hq0 hf

theorem know_fillFold_forecast (grid0 : List Row) (now : ℕ)
    (model : Row → ℚ) (rows : List Row)
    (hrows : ∀ r ∈ rows, ∀ p ∈ grid0, p.dt = r.dt → p.wl_up = none) :
    ∀ g : List Row, g.map projDV = grid0.map projDV → Know now g →
      Know now (rows.foldl (fun g2 r => setForecast g2 r.dt (model r) now) g) := by
  induction rows with
  | nil => intro g _ hK; exact hK
  | cons x xs ih =>
    intro g hproj hK
    rw [List.foldl_cons]
    refine ih (fun r hr => hrows r (List.mem_cons_of_mem _ hr)) _ ?_ ?_
    · unfold setForecast
      rw [map_projDV_updAt g x.dt
          (fun q => { q with wl_forecast := some (model x), tstamp := some now })
          (fun r => rfl), hproj]
    · exact know_updAt_forecast grid0 g x.dt (model x) now hproj
        (hrows x (List.mem_cons_self _ _)) hK

theorem know_lowStep (dc : List Row) (s e : ℕ) (now : ℕ)
    (hg : ((data_with_all_dates dc s e).map (fun q => q.dt)).Nodup)
    (train : List Row → Row → ℚ) (dnm g : List Row) (w : Option ℕ)
    (hproj : g.map projDV = (data_with_all_dates dc s e).map projDV)
    (hK : Know now g) :
    Know now (Test.lowStep train now (data_missing dc s e) dnm g w) := by
  unfold Test.lowStep
  split
  · refine know_fillFold_forecast _ now _ _ ?_ g hproj hK
    intro r hr
    exact missing_dt_missing dc s e hg r (List.mem_of_mem_filter hr)
  · exact hK

theorem know_highStep (dc : List Row) (s e : ℕ) (now : ℕ)
    (hg : ((data_with_all_dates dc s e).map (fun q => q.dt)).Nodup)
    (train : List Row → Row → ℚ) (dc2 pool g : List Row) (w : Option ℕ)
    (hproj : g.map projDV = (data_with_all_dates dc s e).map projDV)
    (hK : Know now g) :
    Know now (Test.highStep train now dc2 (data_missing dc s e) pool g w) := by
  unfold Test.highStep
  refine know_fillFold_forecast _ now _ _ ?_ g hproj hK
  intro r hr
  exact missing_dt_missing dc s e hg r (List.mem_of_mem_filter hr)

theorem know_weekFold (dc : List Row) (s e : ℕ) (now : ℕ)
    (step : List Row → Option ℕ → List Row)
    (hstep : ∀ g2 u, g2.map projDV = (data_with_all_dates dc s e).map projDV
      → Know now g2 → Know now (step g2 u))
    (hpres : ∀ g2 u, (step g2 u).map projDV = g2.map projDV)
    (ws : List (Option ℕ)) :
    ∀ g, g.map projDV = (data_with_all_dates dc s e).map projDV → Know now g
      → Know now (ws.foldl step g) := by
  induction ws with
  | nil => intro g _ hK; exact hK
  | cons u us ih =>
    intro g hproj hK
    rw [List.foldl_cons]
    refine ih _ ?_ (hstep g u hproj hK)
    rw [hpres, hproj]

/-- Every grid row inherits an absent forecast column when the cleaned
input carries none (grid blanks are all-NaN). -/
theorem grid0_forecast_none (dc : List Row) (s e : ℕ)
    (hf : ∀ r ∈ dc, r.wl_forecast = none) :
    ∀ q ∈ data_with_all_dates dc s e, q.wl_forecast = none := by
  intro q hq
  unfold data_with_all_dates at hq
  cases hw : windowData dc s e with
  | nil =>
    rw [hw] at hq
    simp [generate_missing_dates] at hq
  | cons a as =>
    rw [generate_missing_dates_ne_nil (by rw [hw]; exact List.cons_ne_nil a as)] at hq
    rcases List.mem_flatMap.mp hq with ⟨t, _, hm⟩
    rcases mem_mergeAt_cases hm with hb | hd
    · rw [hb]; rfl
    · exact hf q (List.mem_of_mem_filter hd)

/-- Forecast-absence transfers along projCore-equal grids. -/
theorem forecast_none_of_projCore {g1 g2 : List Row}
    (h : g1.map projCore = g2.map projCore)
    (hnone : ∀ q ∈ g2, q.wl_forecast = none) :
    ∀ q ∈ g1, q.wl_forecast = none := by
  intro q hq
  have hmem : projCore q ∈ g2.map projCore := by
    rw [← h]
    exact List.mem_map.mpr ⟨q, hq, rfl⟩
  rcases List.mem_map.mp hmem with ⟨p, hp, hpe⟩
  have : p.wl_forecast = q.wl_forecast := congrArg (fun c => c.2.2.1) hpe
  rw [← this]
  exact hnone p hp

theorem map_projProv_updAt (g : List Row) (t : ℕ) (upd : Row → Row)
    (h : ∀ r, projProv (upd r) = projProv r) :
    (updAt g t upd).map projProv = g.map projProv := by
  unfold updAt
  rw [List.map_map]
  apply List.map_congr_left
  intro r _
  simp only [Function.comp]
  by_cases hdt : r.dt = t
  · rw [if_pos hdt, h]
  · rw [if_neg hdt]

theorem map_projProv_fillFold_wl (model : Row → ℚ) (rows : List Row) :
    ∀ g : List Row,
      ((rows.foldl (fun g2 r => setWl g2 r.dt (model r)) g).map projProv)
        = g.map projProv := by
  induction rows with
  | nil => intro g; rfl
  | cons x xs ih =>
    intro g
    rw [List.foldl_cons, ih]
    unfold setWl
    exact map_projProv_updAt g x.dt
      (fun q => { q with wl_up := some (model x) }) (fun r => rfl)

theorem map_projProv_lowStep (train : List Row → Row → ℚ)
    (dm dnm g : List Row) (w : Option ℕ) :
    (App.lowStep train dm dnm g w).map projProv = g.map projProv := by
  unfold App.lowStep
  split
  · exact map_projProv_fillFold_wl _ _ g
  · rfl

theorem map_projProv_highStep (train : List Row → Row → ℚ)
    (dc dm pool g : List Row) (w : Option ℕ) :
    (App.highStep train dc dm pool g w).map projProv = g.map projProv := by
  unfold App.highStep
  exact map_projProv_fillFold_wl _ _ g

theorem map_projProv_weekFold (step : List Row → Option ℕ → List Row)
    (ws : List (Option ℕ))
    (h : ∀ g2 u, (step g2 u).map projProv = g2.map projProv) :
    ∀ g, ((ws.foldl step g).map projProv) = g.map projProv := by
  induction ws with
  | nil => intro g; rfl
  | cons u us ih =>
    intro g
    rw [List.foldl_cons, ih, h]

/-- The basic variant never writes the provenance or display columns: its
whole run preserves the projection of the grid onto the wl_forecast,
timestamp and wl_up2 columns. -/
theorem map_projProv_app_handle (train : List Row → Row → ℚ)
    (dc : List Row) (s e : ℕ) :
    (App.handle_missing_values_by_week train dc s e).map projProv
      = (data_with_all_dates dc s e).map projProv := by
  unfold App.handle_missing_values_by_week
  by_cases hdm : (data_missing dc s e).length = 0
  · rw [if_pos hdm]
  · rw [if_neg hdm]
    rw [map_projProv_weekFold _ _
      (fun g2 u => map_projProv_highStep train _ _ _ g2 u)]
    unfold App.lowGrid
    rw [map_projProv_weekFold _ _
      (fun g2 u => map_projProv_lowStep train _ _ g2 u)]

/-- C5 (amended per variant): in the extended variant, every run leaves the
original value column untouched (the datetime-value projection of the
output equals that of the freshly regridded window), every filled row
records its prediction in the wl_forecast column paired with the synthesis
time in the timestamp column while the value slot keeps its missing marker,
and (whenever the missing-value path runs) the wl_up2 display column merges
the original value where present with the forecast where absent, so filled
rows remain distinguishable from original rows.  The basic variant records
no provenance: its run preserves the wl_forecast, timestamp and wl_up2
columns of the grid unchanged, writing predictions directly into the value
column, so its filled rows are not distinguishable afterwards. -/
theorem c5_provenance (train : List Row → Row → ℚ) (now : ℕ) (dc : List Row)
    (s e : ℕ) (hnd : ((windowData dc s e).map (fun r => r.dt)).Nodup)
    (hf : ∀ r ∈ dc, r.wl_forecast = none) :
    ((Test.handle_missing_values_by_week train now dc s e).map projDV
        = (data_with_all_dates dc s e).map projDV)
      ∧ Know now (Test.handle_missing_values_by_week train now dc s e)
      ∧ ((data_missing dc s e).length ≠ 0 →
          ∀ q ∈ Test.handle_missing_values_by_week train now dc s e,
            q.wl_up2 = (match q.wl_up with
                        | some v => some v
                        | none => q.wl_forecast))
      ∧ (App.handle_missing_values_by_week train dc s e).map projProv
          = (data_with_all_dates dc s e).map projProv := by
  have hg := grid_dts_nodup dc s e hnd
  have hbase_proj : (Test.interpPrevCol (data_with_all_dates dc s e)).map projDV
      = (data_with_all_dates dc s e).map projDV :=
    map_projDV_of_projCore (map_projCore_interpPrevCol _)
  have hbase_know : Know now (Test.interpPrevCol (data_with_all_dates dc s e)) := by
    intro q hq hfq
    exfalso
    have h0 := forecast_none_of_projCore (map_projCore_interpPrevCol _)
      (grid0_forecast_none dc s e hf) q hq
    rw [h0] at hfq
    simp at hfq
  unfold Test.handle_missing_values_by_week
  by_cases hdm : (data_missing dc s e).length = 0
  · rw [if_pos hdm]
    exact ⟨hbase_proj, hbase_know, fun hne => absurd hdm hne,
      map_projProv_app_handle train dc s e⟩
  · rw [if_neg hdm]
    have hlow_know : Know now (Test.lowGrid train now dc s e) := by
      unfold Test.lowGrid
      exact know_weekFold dc s e now _
        (fun g2 u hp hK => know_lowStep dc s e now hg train _ g2 u hp hK)
        (fun g2 u => map_projDV_lowStep train now _ _ g2 u)
        _ _ hbase_proj hbase_know
    have hhigh_proj : ((classifyWeeks (data_missing dc s e)).2.foldl
        (Test.highStep train now dc (data_missing dc s e)
          (Test.pool1 train now dc s e))
        (Test.lowGrid train now dc s e)).map projDV
        = (data_with_all_dates dc s e).map projDV := by
      rw [map_projDV_weekFold _ _
        (fun g2 u => map_projDV_highStep train now _ _ _ g2 u)]
      exact map_projDV_lowGrid train now dc s e
    have hhigh_know : Know now ((classifyWeeks (data_missing dc s e)).2.foldl
        (Test.highStep train now dc (data_missing dc s e)
          (Test.pool1 train now dc s e))
        (Test.lowGrid train now dc s e)) :=
      know_weekFold dc s e now _
        (fun g2 u hp hK => know_highStep dc s e now hg train _ _ g2 u hp hK)
        (fun g2 u => map_projDV_highStep train now _ _ _ g2 u)
        _ _ (map_projDV_lowGrid train now dc s e) hlow_know
    refine ⟨?_, ?_, ?_, map_projProv_app_handle train dc s e⟩
    · rw [map_projDV_mergeDisplay]
      exact hhigh_proj
    · intro q hq hfq
      rcases List.mem_map.mp hq with ⟨q0, hq0, hq0e⟩
      rw [← hq0e] at hfq ⊢
      exact hhigh_know q0 hq0 hfq
    · intro _ q hq
      rcases List.mem_map.mp hq with ⟨q0, hq0, hq0e⟩
      rw [← hq0e]
      cases q0.wl_up <;> rfl

/-- Witness for C5 at a concrete three-row window with one missing value. -/
theorem c5_provenance_witness :
    (((windowData c3Data 0 100).map (fun r => r.dt)).Nodup
        ∧ (∀ r ∈ c3Data, r.wl_forecast = none))
      ∧ (((Test.handle_missing_values_by_week ctrain0 0 c3Data 0 100).map projDV
            = (data_with_all_dates c3Data 0 100).map projDV)
          ∧ Know 0 (Test.handle_missing_values_by_week ctrain0 0 c3Data 0 100)
          ∧ ((data_missing c3Data 0 100).length ≠ 0 →
              ∀ q ∈ Test.handle_missing_values_by_week ctrain0 0 c3Data 0 100,
                q.wl_up2 = (match q.wl_up with
                            | some v => some v
                            | none => q.wl_forecast))
          ∧ (App.handle_missing_values_by_week ctrain0 c3Data 0 100).map projProv
              = (data_with_all_dates c3Data 0 100).map projProv) :=
  ⟨⟨by decide, by decide⟩,
    c5_provenance ctrain0 0 c3Data 0 100 (by decide) (by decide)⟩

/-- C5 counterexample (basic variant): in the concrete three-row window,
the grid row at minute 15 is missing before the run, and after the basic
variant runs its value column holds the prediction (the missing marker of
the original value column is destroyed) while the forecast, timestamp and
display columns all stay absent: streamlit_app.py records no provenance, so
the claim as stated fails for it. -/
theorem c5_counterexample :
    (rowAt (data_with_all_dates c3Data 0 100) 15).map (fun q => q.wl_up)
        = some none
      ∧ (rowAt (App.handle_missing_values_by_week ctrain0 c3Data 0 100) 15).map
          (fun q => (q.wl_up, q.wl_forecast, q.tstamp, q.wl_up2))
        = some (some 200, none, none, none) := by
  constructor
  · decide
  · decide

/-- C1 (amended): the orchestrator always runs the low-severity pass to
completion before the high-severity pass, whose training pool is the
present-row filter of the post-low-severity grid.  In the basic variant the
low-severity pass writes into the value column, so every row it fills is in
that recomputed pool; in the extended variant the low-severity pass writes
only the provenance columns, so the recomputed pool carries exactly the
datetime-value pairs of the originally present rows and low-severity fills
are not eligible training rows. -/
theorem c1_low_pass_order_and_pool (train : List Row → Row → ℚ) (now : ℕ)
    (dc : List Row) (s e : ℕ) :
    ((data_missing dc s e).length ≠ 0 →
        App.handle_missing_values_by_week train dc s e
          = (classifyWeeks (data_missing dc s e)).2.foldl
              (App.highStep train dc (data_missing dc s e)
                (App.pool1 train dc s e))
              (App.lowGrid train dc s e))
      ∧ (∀ r ∈ App.lowGrid train dc s e, r.wl_up.isSome
          → r ∈ App.pool1 train dc s e)
      ∧ (Test.pool1 train now dc s e).map projDV
          = (data_not_missing dc s e).map projDV := by
  refine ⟨?_, ?_, ?_⟩
  · intro hne
    unfold App.handle_missing_values_by_week
    rw [if_neg hne]
  · intro r hr hs
    unfold App.pool1
    exact List.mem_filter.mpr ⟨hr, by simpa using hs⟩
  · unfold Test.pool1 data_not_missing
    exact filter_isSome_projDV_congr _ _ (map_projDV_lowGrid train now dc s e)

/-- Witness for the amended C1 at a concrete window carrying a missing
row. -/
theorem c1_low_pass_order_and_pool_witness :
    (data_missing c3Data 0 100).length ≠ 0
      ∧ (App.handle_missing_values_by_week ctrain0 c3Data 0 100
          = (classifyWeeks (data_missing c3Data 0 100)).2.foldl
              (App.highStep ctrain0 c3Data (data_missing c3Data 0 100)
                (App.pool1 ctrain0 c3Data 0 100))
              (App.lowGrid ctrain0 c3Data 0 100))
      ∧ (∀ r ∈ App.lowGrid ctrain0 c3Data 0 100, r.wl_up.isSome
          → r ∈ App.pool1 ctrain0 c3Data 0 100)
      ∧ (Test.pool1 ctrain0 0 c3Data 0 100).map projDV
          = (data_not_missing c3Data 0 100).map projDV :=
  ⟨by decide,
    (c1_low_pass_order_and_pool ctrain0 0 c3Data 0 100).1 (by decide),
    (c1_low_pass_order_and_pool ctrain0 0 c3Data 0 100).2.1,
    (c1_low_pass_order_and_pool ctrain0 0 c3Data 0 100).2.2⟩

theorem flatMapCongr {α β : Type} (l : List α) (f g : α → List β)
    (h : ∀ a ∈ l, f a = g a) : l.flatMap f = l.flatMap g := by
  induction l with
  | nil => rfl
  | cons x xs ih =>
    rw [List.flatMap_cons, List.flatMap_cons, h x (List.mem_cons_self _ _),
      ih (fun a ha => h a (List.mem_cons_of_mem _ ha))]

/-- When the grid axis is exactly the (duplicate-free) timestamp column of
the input, the left merge reproduces the input. -/
theorem flatMap_mergeAt_self :
    ∀ data : List Row, (data.map (fun r => r.dt)).Nodup →
      (data.map (fun r => r.dt)).flatMap (mergeAt data) = data
  | [], _ => rfl
  | r :: rest, hnd => by
    rw [List.map_cons] at hnd ⊢
    have hnd2 := List.nodup_cons.mp hnd
    rw [List.flatMap_cons]
    have h1 : mergeAt (r :: rest) r.dt = [r] := by
      unfold mergeAt
      have hfil : (r :: rest).filter (fun q => q.dt = r.dt) = [r] := by
        rw [List.filter_cons_of_pos (by simp)]
        rw [List.filter_eq_nil_iff.mpr ?_]
        intro a ha hpa
        simp only [decide_eq_true_eq] at hpa
        exact hnd2.1 (hpa ▸ List.mem_map.mpr ⟨a, ha, rfl⟩)
      rw [hfil]
    have h2 : (rest.map (fun q => q.dt)).flatMap (mergeAt (r :: rest))
        = (rest.map (fun q => q.dt)).flatMap (mergeAt rest) := by
      apply flatMapCongr
      intro t ht
      have hrt : ¬ (r.dt = t) := fun he => hnd2.1 (he ▸ ht)
      unfold mergeAt
      rw [List.filter_cons_of_neg (by simpa using hrt)]
    rw [h1, h2, flatMap_mergeAt_self rest hnd2.2]
    rfl

/-- On a duplicate-free input whose timestamp column is already the full
grid axis, generate_missing_dates is the identity. -/
theorem generate_missing_dates_of_complete (data : List Row) (hne : data ≠ [])
    (hnd : (data.map (fun r => r.dt)).Nodup)
    (hdts : gridRange (natMinL (data.map (fun r => r.dt)))
        (natMaxL (data.map (fun r => r.dt))) = data.map (fun r => r.dt)) :
    generate_missing_dates data = data := by
  rw [generate_missing_dates_ne_nil hne, hdts]
  exact flatMap_mergeAt_self data hnd

theorem exData_map_dt :
    exData.map (fun r => r.dt) = (List.range 291).map (fun i => 15 * i) := by
  have h291 : (291 : ℕ) = 290 + 1 := rfl
  have h290 : (290 : ℕ) = 289 + 1 := rfl
  rw [h291, List.range_succ, h290, List.range_succ]
  unfold exData
  simp only [List.map_append, List.map_map]
  rfl

theorem exData_dts_nodup : (exData.map (fun r => r.dt)).Nodup := by
  rw [exData_map_dt]
  refine List.Nodup.map ?_ (List.nodup_range _)
  intro a b h
  dsimp only at h
  omega

theorem windowData_exData : windowData exData 0 4350 = exData := by
  unfold windowData
  apply List.filter_eq_self.mpr
  intro r hr
  have hle : r.dt ≤ 4350 := by
    have hmem : r.dt ∈ exData.map (fun q => q.dt) :=
      List.mem_map.mpr ⟨r, hr, rfl⟩
    rw [exData_map_dt] at hmem
    rcases List.mem_map.mp hmem with ⟨i, hi, he⟩
    have := List.mem_range.mp hi
    omega
  simp [hle]

theorem grid0_exData : data_with_all_dates exData 0 4350 = exData := by
  unfold data_with_all_dates
  rw [windowData_exData]
  refine generate_missing_dates_of_complete exData (by decide) exData_dts_nodup ?_
  rw [exData_map_dt]
  have hmin : natMinL ((List.range 291).map (fun i => 15 * i)) = 0 := by decide
  have hmax : natMaxL ((List.range 291).map (fun i => 15 * i)) = 4350 := by decide
  rw [hmin, hmax]
  unfold gridRange
  norm_num

theorem dm_exData : data_missing exData 0 4350 = dmEx := by
  unfold data_missing
  rw [grid0_exData]
  unfold exData dmEx
  rw [List.filter_append, List.filter_map]
  have hall : List.filter
      ((fun r : Row => r.wl_up.isNone) ∘ fun i => exRow i 1 none)
      (List.range 289) = List.range 289 :=
    List.filter_eq_self.mpr (fun a _ => rfl)
  rw [hall]
  rfl

theorem dnm_exData :
    data_not_missing exData 0 4350 = [exRow 290 2 (some 200)] := by
  unfold data_not_missing
  rw [grid0_exData]
  unfold exData
  rw [List.filter_append, List.filter_map]
  have hnil : List.filter
      ((fun r : Row => r.wl_up.isSome) ∘ fun i => exRow i 1 none)
      (List.range 289) = [] :=
    List.filter_eq_nil_iff.mpr (fun a _ => by simp [exRow, blankRow])
  rw [hnil]
  rfl

/-- Witness for C4 at the concrete scenario: week 1 is high-severity and
each of its missing rows is resolved by the scope model the theorem names,
in both variants. -/
theorem c4_high_severity_scope_witness :
    (((windowData exData 0 4350).map (fun r => r.dt)).Nodup
        ∧ some 1 ∈ (classifyWeeks (data_missing exData 0 4350)).2)
      ∧ ∀ r ∈ groupOf (data_missing exData 0 4350) (some 1),
          (rowAt (App.handle_missing_values_by_week ctrain0 exData 0 4350) r.dt
            = some { r with wl_up := some (ctrain0
                (App.highScope exData (data_missing exData 0 4350)
                  (App.pool1 ctrain0 exData 0 4350) (some 1)) r) })
          ∧ (rowAt (Test.handle_missing_values_by_week ctrain0 0 exData 0 4350)
                r.dt).map (fun q => (q.wl_forecast, q.tstamp))
              = some (some (ctrain0
                  (Test.highScope exData (data_missing exData 0 4350)
                    (Test.pool1 ctrain0 0 exData 0 4350) (some 1)) r), some 0) :=
  ⟨⟨by rw [windowData_exData]; exact exData_dts_nodup,
    by rw [dm_exData]; decide⟩,
    c4_high_severity_scope ctrain0 0 exData 0 4350
      (by rw [windowData_exData]; exact exData_dts_nodup) (some 1)
      (by rw [dm_exData]; decide)⟩

theorem lowGrid_exData_eq :
    Test.lowGrid ctrain0 0 exData 0 4350
      = (classifyWeeks dmEx).1.foldl
          (Test.lowStep ctrain0 0 dmEx [exRow 290 2 (some 200)])
          (Test.interpPrevCol exData) := by
  unfold Test.lowGrid
  rw [dm_exData, dnm_exData, grid0_exData]

/-- C1 counterexample (extended variant): in the concrete scenario, week 1
is high-severity and its clamped next week is low-severity, so its model
trains on the adjacent weeks taken from the recomputed pool; the week-2
missing row at minute 4335 is filled by the low-severity pass (its forecast
is recorded while its value slot stays absent), yet no row of the
recomputed pool carries that datetime: rows filled in the low-severity pass
are not eligible training rows for the high-severity week, contradicting
the claim as stated for test.py. -/
theorem c1_counterexample :
    (classifyWeeks (data_missing exData 0 4350)).2 = [some 1]
      ∧ nullCountWeek (data_missing exData 0 4350)
          (nextWeekOf (data_missing exData 0 4350) (some 1)) ≤ 288
      ∧ (rowAt (Test.lowGrid ctrain0 0 exData 0 4350) 4335).map
          (fun q => (q.wl_forecast.isSome, q.wl_up)) = some (true, none)
      ∧ ∀ p ∈ Test.pool1 ctrain0 0 exData 0 4350, p.dt ≠ 4335 := by
  refine ⟨?_, ?_, ?_, ?_⟩
  · rw [dm_exData]; decide
  · rw [dm_exData]; decide
  · rw [lowGrid_exData_eq]; decide
  · unfold Test.pool1
    rw [lowGrid_exData_eq]
    decide
